import Mathlib

/-! Verification of the v9 CPU emulator core (`em.c`).

The development shallowly embeds the emulator: 32-bit machine words are
natural numbers reduced modulo `2 ^ 32` exactly where C `uint` arithmetic
wraps, host memory is a byte function, and the module globals of the C
source are gathered into state records (the MMU and translation-cache
globals in `MmuState`, the interpreter locals and remaining globals in
`EmState`), as the design notes of the specification themselves suggest
for a structured port.  The translation cache (`flush`, `setpage`), the
page-table walker (`rlook`, `wlook`), the trap/interrupt delivery path and
the interpreter cases needed by the claims (`HALT`, the block-memory
opcodes, the integer divide/modulo family, `SX`, `CLI`, `STI`, `RTI`) are
translated line by line from the source.  Labels reached by `goto`
(`fixpc`, `fixsp`, `exception`, `interrupt`, `fatal`) become constructors
of the `Step` continuation type, mirroring the dispatch structure of the
interpreter loop.  C operations whose behaviour is undefined (signed or
unsigned division/modulo by zero without a preceding check, signed
overflow of `INT_MIN / -1`) are made explicit as the `Step.hostUB`
outcome: on the host they raise SIGFPE instead of any emulator trap. -/

namespace Em

/-- Size of the 32-bit machine-word space: machine words are 32-bit
unsigned values modelled as `Nat`, reduced modulo `2 ^ 32` wherever the
C `uint` arithmetic wraps. -/
def wordSize : Nat := 4294967296

/-- C 32-bit unsigned addition. -/
def add32 (x y : Nat) : Nat := (x + y) % wordSize

/-- C 32-bit unsigned subtraction (two's complement wraparound). -/
def sub32 (x y : Nat) : Nat := (x + (wordSize - y % wordSize)) % wordSize

/-- C unary minus on `uint` (two's complement negation). -/
def neg32 (x : Nat) : Nat := (wordSize - x % wordSize) % wordSize

/-- The 32-bit mask `-4096` (clear the low 12 bits). -/
def maskPage : Nat := wordSize - 4096

/-- The 32-bit mask `-8`. -/
def mask8 : Nat := wordSize - 8

/-- The 32-bit mask `-4`. -/
def mask4 : Nat := wordSize - 4

/-- The 32-bit mask `-2`. -/
def mask2 : Nat := wordSize - 2

/-- Arithmetic (sign-extending) right shift by 8 of a 32-bit word: the C
source declares `immediate` as `int`, so `immediate >> 8` sign-extends the
24-bit operand field. -/
def shr8s (w : Nat) : Nat :=
  if w < 2147483648 then w >>> 8 else (w >>> 8) ||| 4278190080

/-- Reinterpret a 32-bit word as a signed C `int`. -/
def toInt32 (w : Nat) : Int := if w < 2147483648 then (w : Int) else (w : Int) - 4294967296

/-- Truncate an integer back to a 32-bit word (two's complement). -/
def ofInt32 (i : Int) : Nat := (i % 4294967296).toNat

/-- Host memory: a byte value for every host byte address.  The emulator
only ever dereferences addresses it computed inside the physical-memory
allocation, so a total function is a faithful model of those accesses. -/
def Mem := Nat → Nat

/-- Read one byte. -/
def mget (m : Mem) (x : Nat) : Nat := m x % 256

/-- Little-endian 32-bit load, as every `*(uint *)` read of the source. -/
def load32 (m : Mem) (x : Nat) : Nat :=
  mget m x + mget m (x + 1) * 256 + mget m (x + 2) * 65536 + mget m (x + 3) * 16777216

/-- Little-endian 32-bit store, as every `*(uint *) = ` write of the source. -/
def store32 (m : Mem) (x : Nat) (w : Nat) : Mem := fun y =>
  if y = x then w % 256
  else if y = x + 1 then w / 256 % 256
  else if y = x + 2 then w / 65536 % 256
  else if y = x + 3 then w / 16777216 % 256
  else m y

/-- C `memcpy` on host byte addresses (the source only calls it on
disjoint per-page chunks; the model reads all source bytes from the old
memory). -/
def memcpyBytes (m : Mem) (dst src n : Nat) : Mem := fun y =>
  if dst ≤ y ∧ y < dst + n then m (src + (y - dst)) else m y

/-- C `memset` on host byte addresses. -/
def memsetBytes (m : Mem) (dst b n : Nat) : Mem := fun y =>
  if dst ≤ y ∧ y < dst + n then b % 256 else m y

/-- First index below the bound at which the two byte ranges differ. -/
def firstDiff (m : Mem) (x y : Nat) : Nat → Option Nat
  | 0 => none
  | Nat.succ k =>
      if mget m x ≠ mget m y then some 0
      else (firstDiff m (x + 1) (y + 1) k).map (· + 1)

/-- C `memcmp` on host byte addresses.  C specifies only the sign of a
nonzero result; the model returns the difference of the first differing
unsigned bytes (as the host C library does), truncated to a word. -/
def memcmpBytes (m : Mem) (x y n : Nat) : Nat :=
  match firstDiff m x y n with
  | none => 0
  | some i => ofInt32 ((mget m (x + i) : Int) - (mget m (y + i) : Int))

/-- C `memchr` on host byte addresses: index of the first occurrence of
the byte below the bound, if any. -/
def memchrIdx (m : Mem) (x b : Nat) : Nat → Option Nat
  | 0 => none
  | Nat.succ k =>
      if mget m x = b % 256 then some 0
      else (memchrIdx m (x + 1) b k).map (· + 1)

/-- Page-table-entry flag: present. -/
def PTE_P : Nat := 1

/-- Page-table-entry flag: writeable. -/
def PTE_W : Nat := 2

/-- Page-table-entry flag: user. -/
def PTE_U : Nat := 4

/-- Page-table-entry flag: accessed. -/
def PTE_A : Nat := 32

/-- Page-table-entry flag: dirty. -/
def PTE_D : Nat := 64

/-- Fault code: bad physical address. -/
def FMEM : Nat := 0

/-- Fault code: timer interrupt. -/
def FTIMER : Nat := 1

/-- Fault code: keyboard interrupt. -/
def FKEYBD : Nat := 2

/-- Fault code: privileged instruction. -/
def FPRIV : Nat := 3

/-- Fault code: illegal instruction. -/
def FINST : Nat := 4

/-- Fault code: software trap. -/
def FSYS : Nat := 5

/-- Fault code: arithmetic trap. -/
def FARITH : Nat := 6

/-- Fault code: page fault on opcode fetch. -/
def FIPAGE : Nat := 7

/-- Fault code: page fault on write. -/
def FWPAGE : Nat := 8

/-- Fault code: page fault on read. -/
def FRPAGE : Nat := 9

/-- Trap-code bit marking a user-mode exception. -/
def USER : Nat := 16

/-- Maximum number of cached page translations (`TPAGES`). -/
def TPAGES : Nat := 4096

/-- The MMU and translation-cache globals of `em.c`: host memory, the
physical-memory base and size, `virtualMemoryEnabled`, `pageDirectory`,
the four translation tables, the populated-VPN list `tpage` (the list
models `tpage[0 .. tpages)`), and the `trap` / `vadr` latches written by
the walker. -/
structure MmuState where
  mem : Mem
  memory : Nat
  memorySize : Nat
  vmem : Nat
  pdir : Nat
  kr : Nat → Nat
  kw : Nat → Nat
  ur : Nat → Nat
  uw : Nat → Nat
  tpage : List Nat
  trap : Nat
  vadr : Nat

/-- Pointwise update of a translation table. -/
def upd (f : Nat → Nat) (i : Nat) (v : Nat) : Nat → Nat :=
  fun x => if x = i then v else f x

/-- The loop body of `flush()`: zero all four quadrants of every VPN on
the populated list. -/
def flushTables : List Nat → (Nat → Nat) → (Nat → Nat) → (Nat → Nat) → (Nat → Nat) →
    ((Nat → Nat) × (Nat → Nat) × (Nat → Nat) × (Nat → Nat))
  | [], kr, kw, ur, uw => (kr, kw, ur, uw)
  | v :: l, kr, kw, ur, uw =>
      flushTables l (upd kr v 0) (upd kw v 0) (upd ur v 0) (upd uw v 0)

/-- `flush()`: zero the four quadrants of every listed VPN, then empty
the list. -/
def flush (m : MmuState) : MmuState :=
  let t := flushTables m.tpage m.kr m.kw m.ur m.uw
  { m with kr := t.1, kw := t.2.1, ur := t.2.2.1, uw := t.2.2.2, tpage := [] }

/-- `setpage(v, p, writable, userable)`: fail with `FMEM` when the
physical address is at or beyond the physical-memory size; otherwise
compute the XOR-encoded entry, append the VPN to the populated list when
its kernel-read quadrant was empty (flushing first at capacity), and fill
the four quadrants. -/
def setpage (m : MmuState) (v p writable userable : Nat) : Nat × MmuState :=
  if m.memorySize ≤ p then (0, { m with trap := FMEM, vadr := v })
  else
    let e := ((v ^^^ add32 m.memory p) &&& maskPage) + 1
    let vp := v >>> 12
    let m1 :=
      if m.kr vp = 0 then
        let m0 := if TPAGES ≤ m.tpage.length then flush m else m
        { m0 with tpage := m0.tpage ++ [vp] }
      else m
    (e, { m1 with
            kr := upd m1.kr vp e,
            kw := upd m1.kw vp (if writable ≠ 0 then e else 0),
            ur := upd m1.ur vp (if userable ≠ 0 then e else 0),
            uw := upd m1.uw vp (if userable ≠ 0 ∧ writable ≠ 0 then e else 0) })

/-- `rlook(v)`: the read-side page-table walk.  With paging disabled it
installs the identity mapping with full permissions; otherwise it fetches
the PDE, sets its accessed bit if clear, bounds-checks it, fetches the
PTE, checks present and user permissions, sets the PTE accessed bit if
clear, and installs with `writable = (pte & PTE_D) && (q & PTE_W)` and
`userable = q & PTE_U` where `q = pte & pde`. -/
def rlook (m : MmuState) (user : Nat) (v : Nat) : Nat × MmuState :=
  if m.vmem = 0 then setpage m v v 1 1 else
  let ppde := add32 m.pdir ((v >>> 22) <<< 2)
  let pde := load32 m.mem ppde
  if pde &&& PTE_P ≠ 0 then
    let m1 := if pde &&& PTE_A = 0 then { m with mem := store32 m.mem ppde (pde ||| PTE_A) } else m
    if m.memorySize ≤ pde then (0, { m1 with trap := FMEM, vadr := v })
    else
      let ppte := add32 m.memory ((pde &&& maskPage) + ((v >>> 10) &&& 4092))
      let pte := load32 m1.mem ppte
      let q := pte &&& pde
      let userable := q &&& PTE_U
      if pte &&& PTE_P ≠ 0 ∧ (userable ≠ 0 ∨ user = 0) then
        let m2 := if pte &&& PTE_A = 0 then { m1 with mem := store32 m1.mem ppte (pte ||| PTE_A) } else m1
        setpage m2 v pte (if pte &&& PTE_D ≠ 0 ∧ q &&& PTE_W ≠ 0 then 1 else 0) userable
      else (0, { m1 with trap := FRPAGE, vadr := v })
  else (0, { m with trap := FRPAGE, vadr := v })

/-- `wlook(v)`: the write-side page-table walk.  Identical to `rlook` up
to the PTE permission check, which additionally requires `q & PTE_W`; on
success it sets the PTE's dirty and accessed bits and installs with
`writable = q & PTE_W`. -/
def wlook (m : MmuState) (user : Nat) (v : Nat) : Nat × MmuState :=
  if m.vmem = 0 then setpage m v v 1 1 else
  let ppde := add32 m.pdir ((v >>> 22) <<< 2)
  let pde := load32 m.mem ppde
  if pde &&& PTE_P ≠ 0 then
    let m1 := if pde &&& PTE_A = 0 then { m with mem := store32 m.mem ppde (pde ||| PTE_A) } else m
    if m.memorySize ≤ pde then (0, { m1 with trap := FMEM, vadr := v })
    else
      let ppte := add32 m.memory ((pde &&& maskPage) + ((v >>> 10) &&& 4092))
      let pte := load32 m1.mem ppte
      let q := pte &&& pde
      let userable := q &&& PTE_U
      if pte &&& PTE_P ≠ 0 ∧ ((userable ≠ 0 ∨ user = 0) ∧ q &&& PTE_W ≠ 0) then
        let m2 := if pte &&& (PTE_D ||| PTE_A) ≠ PTE_D ||| PTE_A
                  then { m1 with mem := store32 m1.mem ppte (pte ||| (PTE_D ||| PTE_A)) } else m1
        setpage m2 v pte (q &&& PTE_W) userable
      else (0, { m1 with trap := FWPAGE, vadr := v })
  else (0, { m with trap := FWPAGE, vadr := v })

/-- The interpreter state: the MMU state plus the integer registers, the
fast-path shadow registers (`xpc`/`tpc`/`fpc` for code, `xsp`/`tsp`/`fsp`
for the stack), both stack pointers, the privilege and interrupt globals,
and which pair of translation tables the `currentRead/WritePageTable`
pointers select (`curUser`).  The floating registers take no part in any
claim and are omitted together with the floating opcodes. -/
structure EmState where
  vm : MmuState
  a : Nat
  b : Nat
  c : Nat
  xpc : Nat
  tpc : Nat
  fpc : Nat
  xsp : Nat
  tsp : Nat
  fsp : Nat
  ssp : Nat
  usp : Nat
  user : Nat
  iena : Nat
  ipend : Nat
  ivec : Nat
  curUser : Bool
  xcycle : Nat

/-- The table `currentReadPageTable` points at. -/
def curRead (s : EmState) : Nat → Nat := if s.curUser then s.vm.ur else s.vm.kr

/-- The table `currentWritePageTable` points at. -/
def curWrite (s : EmState) : Nat → Nat := if s.curUser then s.vm.uw else s.vm.kw

/-- The idiom `if (!(t = currentReadPageTable[v >> 12]) && !(t = rlook(v)))`:
consult the current read table, fall back to the walker on a miss, and
return the entry (0 on fault) with the updated state. -/
def treadAt (s : EmState) (v : Nat) : Nat × EmState :=
  let t := curRead s (v >>> 12)
  if t ≠ 0 then (t, s)
  else
    let r := rlook s.vm s.user v
    (r.1, { s with vm := r.2 })

/-- The write-side analogue, backed by `wlook`. -/
def twriteAt (s : EmState) (v : Nat) : Nat × EmState :=
  let t := curWrite s (v >>> 12)
  if t ≠ 0 then (t, s)
  else
    let r := wlook s.vm s.user v
    (r.1, { s with vm := r.2 })

/-- Continuation tokens for the interpreter's inter-opcode `goto`s, as the
specification's design notes describe them: fall through to the next
instruction, re-translate the stack or code page, enter the `exception`
or `interrupt` label, return from `cpu` (`HALT` and kin), reach the
`fatal` label, or run into C undefined behaviour (modelled explicitly;
on the host it kills the process with SIGFPE). -/
inductive Step where
  | next : EmState → Step
  | gofixsp : EmState → Step
  | gofixpc : EmState → Step
  | exception : EmState → Step
  | interrupt : EmState → Step
  | halt : EmState → Step
  | fatal : EmState → Step
  | hostUB : EmState → Step

/-- The state carried by a continuation token. -/
def Step.stateOf : Step → EmState
  | .next s => s
  | .gofixsp s => s
  | .gofixpc s => s
  | .exception s => s
  | .interrupt s => s
  | .halt s => s
  | .fatal s => s
  | .hostUB s => s

/-- Whether a token enters trap/interrupt delivery. -/
def Step.isIntr : Step → Bool
  | .interrupt _ => true
  | _ => false

/-- Whether a token re-enters the fetch loop at `fixpc`. -/
def Step.isFixpc : Step → Bool
  | .gofixpc _ => true
  | _ => false

/-- Outcome of trap/interrupt delivery: either the state that resumes at
`fixpc` with `xpc` aimed at the interrupt vector, or the `fatal` label
(kernel-stack fault during delivery). -/
inductive Deliv where
  | fatal : EmState → Deliv
  | ok : EmState → Deliv

/-- The state carried by a delivery outcome. -/
def Deliv.stateOf : Deliv → EmState
  | .fatal s => s
  | .ok s => s

/-- Whether delivery succeeded. -/
def Deliv.isOk : Deliv → Bool
  | .ok _ => true
  | .fatal _ => false

/-- The `interrupt:` label: quench the fast stack window, switch to the
kernel ring (saving `usp`, marking the trap with `USER`) when coming from
user mode, push the guest PC and then the trap code onto the kernel
stack (faulting pushes are fatal), and aim `xpc` at the interrupt
vector. -/
def deliver (s : EmState) : Deliv :=
  let s0 := { s with xsp := sub32 s.xsp s.tsp, tsp := 0, fsp := 0 }
  let s1 :=
    if s0.user ≠ 0 then
      { s0 with usp := s0.xsp, xsp := s0.ssp, user := 0, curUser := false,
                vm := { s0.vm with trap := s0.vm.trap ||| USER } }
    else s0
  let s2 := { s1 with xsp := sub32 s1.xsp 8 }
  let r1 := twriteAt s2 s2.xsp
  if r1.1 = 0 then .fatal r1.2
  else
    let s3 := { r1.2 with vm := { r1.2.vm with
      mem := store32 r1.2.vm.mem ((r1.2.xsp ^^^ r1.1) &&& mask8) (sub32 r1.2.xpc r1.2.tpc) } }
    let s4 := { s3 with xsp := sub32 s3.xsp 8 }
    let r2 := twriteAt s4 s4.xsp
    if r2.1 = 0 then .fatal r2.2
    else
      let s5 := { r2.2 with vm := { r2.2.vm with
        mem := store32 r2.2.vm.mem ((r2.2.xsp ^^^ r2.1) &&& mask8) r2.2.vm.trap } }
      .ok { s5 with
              xcycle := add32 s5.xcycle (sub32 (add32 s5.ivec s5.tpc) s5.xpc),
              xpc := add32 s5.ivec s5.tpc }

/-- The `exception:` label: a fault with interrupts disabled is fatal
("exception in interrupt handler"); otherwise fall through to the
`interrupt:` label. -/
def exceptionEntry (s : EmState) : Deliv :=
  if s.iena = 0 then .fatal s else deliver s

theorem treadAt_c (s : EmState) (v : Nat) : (treadAt s v).2.c = s.c := by
  simp only [treadAt]; split <;> rfl

theorem treadAt_a (s : EmState) (v : Nat) : (treadAt s v).2.a = s.a := by
  simp only [treadAt]; split <;> rfl

theorem treadAt_b (s : EmState) (v : Nat) : (treadAt s v).2.b = s.b := by
  simp only [treadAt]; split <;> rfl

theorem twriteAt_c (s : EmState) (v : Nat) : (twriteAt s v).2.c = s.c := by
  simp only [twriteAt]; split <;> rfl

theorem twriteAt_a (s : EmState) (v : Nat) : (twriteAt s v).2.a = s.a := by
  simp only [twriteAt]; split <;> rfl

theorem twriteAt_b (s : EmState) (v : Nat) : (twriteAt s v).2.b = s.b := by
  simp only [twriteAt]; split <;> rfl

/-- The two-operand chunk bound of the block-memory opcodes:
`u = 4096 - (a & 4095); if (u > c) u = c;`. -/
def chunk2 (a c : Nat) : Nat :=
  if c < 4096 - (a &&& 4095) then c else 4096 - (a &&& 4095)

/-- The three-operand chunk bound:
`if ((v = 4096 - (a & 4095)) > c) v = c; if ((u = 4096 - (b & 4095)) > v) u = v;`. -/
def chunk3 (a b c : Nat) : Nat :=
  if chunk2 a c < 4096 - (b &&& 4095) then chunk2 a c else 4096 - (b &&& 4095)

theorem and4095_lt (a : Nat) : a &&& 4095 < 4096 := by
  have h := Nat.and_pow_two_sub_one_eq_mod a 12
  rw [show ((2 : Nat) ^ 12 - 1) = 4095 by norm_num] at h
  rw [h, show ((2 : Nat) ^ 12) = 4096 by norm_num]
  omega

theorem chunk2_pos (a c : Nat) (hc : c ≠ 0) : 0 < chunk2 a c := by
  have h := and4095_lt a
  unfold chunk2
  split <;> omega

theorem chunk2_le (a c : Nat) : chunk2 a c ≤ c := by
  have h := and4095_lt a
  unfold chunk2
  split <;> omega

theorem chunk3_pos (a b c : Nat) (hc : c ≠ 0) : 0 < chunk3 a b c := by
  have h1 := chunk2_pos a c hc
  have h := and4095_lt b
  unfold chunk3
  split <;> omega

theorem chunk3_le (a b c : Nat) : chunk3 a b c ≤ c := by
  have h1 := chunk2_le a c
  unfold chunk3
  split <;> omega

theorem chunk2_eq_min (a c : Nat) : chunk2 a c = min (4096 - (a &&& 4095)) c := by
  simp only [chunk2, Nat.min_def]
  split_ifs <;> omega

theorem chunk3_eq_min (a b c : Nat) :
    chunk3 a b c = min (4096 - (a &&& 4095)) (min (4096 - (b &&& 4095)) c) := by
  simp only [chunk3, chunk2, Nat.min_def]
  split_ifs <;> omega

/-- The `MCPY` loop: `while (c) ...` — translate the source page for
read and the destination page for write (faulting chunks leave the
registers at their current partial-progress values), copy one per-page
chunk, advance `a` and `b`, shrink `c`. -/
def mcpyLoop (s : EmState) : Step :=
  if hc : s.c = 0 then .next s
  else
    let r1 := treadAt s s.b
    if r1.1 = 0 then .exception r1.2
    else
      let r2 := twriteAt r1.2 r1.2.a
      if r2.1 = 0 then .exception r2.2
      else
        let s2 := r2.2
        let u := chunk3 s2.a s2.b s2.c
        let m2 := memcpyBytes s2.vm.mem (s2.a ^^^ (r2.1 &&& mask2)) (s2.b ^^^ (r1.1 &&& mask2)) u
        mcpyLoop { s2 with a := add32 s2.a u, b := add32 s2.b u, c := s2.c - u,
                           vm := { s2.vm with mem := m2 } }
termination_by s.c
decreasing_by
  have h2 : s2.c = s.c := by
    show (twriteAt (treadAt s s.b).2 (treadAt s s.b).2.a).2.c = s.c
    rw [twriteAt_c, treadAt_c]
  have hu1 : 0 < u := chunk3_pos s2.a s2.b s2.c (by omega)
  have hu2 : u ≤ s2.c := chunk3_le s2.a s2.b s2.c
  show s2.c - u < s.c
  omega

/-- The `MCMP` loop: compare per-page chunks; a mismatch stores the
`memcmp` result in `a`, advances `b` past the remaining bytes and clears
`c`; exhaustion clears `a`. -/
def mcmpLoop (s : EmState) : Step :=
  if hc : s.c = 0 then .next { s with a := 0 }
  else
    let r1 := treadAt s s.b
    if r1.1 = 0 then .exception r1.2
    else
      let r2 := treadAt r1.2 r1.2.a
      if r2.1 = 0 then .exception r2.2
      else
        let s2 := r2.2
        let u := chunk3 s2.a s2.b s2.c
        let t := memcmpBytes s2.vm.mem (s2.a ^^^ (r2.1 &&& mask2)) (s2.b ^^^ (r1.1 &&& mask2)) u
        if t ≠ 0 then .next { s2 with a := t, b := add32 s2.b s2.c, c := 0 }
        else mcmpLoop { s2 with a := add32 s2.a u, b := add32 s2.b u, c := s2.c - u }
termination_by s.c
decreasing_by
  have h2 : s2.c = s.c := by
    show (treadAt (treadAt s s.b).2 (treadAt s s.b).2.a).2.c = s.c
    rw [treadAt_c, treadAt_c]
  have hu1 : 0 < u := chunk3_pos s2.a s2.b s2.c (by omega)
  have hu2 : u ≤ s2.c := chunk3_le s2.a s2.b s2.c
  show s2.c - u < s.c
  omega

/-- The `MCHR` loop: scan per-page chunks for the byte in `b`; a hit
leaves its guest address in `a` and clears `c`; exhaustion clears `a`. -/
def mchrLoop (s : EmState) : Step :=
  if hc : s.c = 0 then .next { s with a := 0 }
  else
    let r := treadAt s s.a
    if r.1 = 0 then .exception r.2
    else
      let s2 := r.2
      let u := chunk2 s2.a s2.c
      match memchrIdx s2.vm.mem (s2.a ^^^ (r.1 &&& mask2)) s2.b u with
      | some i => .next { s2 with a := add32 s2.a i, c := 0 }
      | none => mchrLoop { s2 with a := add32 s2.a u, c := s2.c - u }
termination_by s.c
decreasing_by
  have h2 : s2.c = s.c := by
    show (treadAt s s.a).2.c = s.c
    rw [treadAt_c]
  have hu1 : 0 < u := chunk2_pos s2.a s2.c (by omega)
  have hu2 : u ≤ s2.c := chunk2_le s2.a s2.c
  show s2.c - u < s.c
  omega

/-- The `MSET` loop: fill per-page chunks with the byte in `b`. -/
def msetLoop (s : EmState) : Step :=
  if hc : s.c = 0 then .next s
  else
    let r := twriteAt s s.a
    if r.1 = 0 then .exception r.2
    else
      let s2 := r.2
      let u := chunk2 s2.a s2.c
      let m2 := memsetBytes s2.vm.mem (s2.a ^^^ (r.1 &&& mask2)) s2.b u
      msetLoop { s2 with a := add32 s2.a u, c := s2.c - u, vm := { s2.vm with mem := m2 } }
termination_by s.c
decreasing_by
  have h2 : s2.c = s.c := by
    show (twriteAt s s.a).2.c = s.c
    rw [twriteAt_c]
  have hu1 : 0 < u := chunk2_pos s2.a s2.c (by omega)
  have hu2 : u ≤ s2.c := chunk2_le s2.a s2.c
  show s2.c - u < s.c
  omega

/-- The opcodes embedded from the interpreter's dispatch switch.  The
numeric opcode values live in a header outside this translation unit, so
opcodes are named symbolically; `execInstr` below gives each listed case
its source semantics (the remaining opcodes play no part in any claim). -/
inductive Op where
  | HALT
  | MCPY
  | MCMP
  | MCHR
  | MSET
  | DIV
  | DIVI
  | DIVL
  | DVU
  | DVUI
  | DVUL
  | MOD
  | MODI
  | MODL
  | MDU
  | MDUI
  | MDUL
  | SX
  | CLI
  | STI
  | RTI

/-- One interpreter dispatch step for the embedded opcodes, taking the
full 32-bit instruction word `imm` (the source variable `immediate`) and
the machine state just after the fetch.  Each case is translated from
the corresponding `case` of the `switch ((uchar)immediate)` in `cpu`;
`break` with a set trap becomes `Step.exception`, `goto interrupt`
becomes `Step.interrupt`, `return` becomes `Step.halt`, `goto fatal`
becomes `Step.fatal`, and C division/modulo whose divisor the source
does not check, or whose signed quotient overflows, becomes
`Step.hostUB`. -/
def execInstr (op : Op) (imm : Nat) (s : EmState) : Step :=
  match op with
  | .HALT => .halt s
  | .MCPY => mcpyLoop s
  | .MCMP => mcmpLoop s
  | .MCHR => mchrLoop s
  | .MSET => msetLoop s
  | .DIV =>
      if s.b = 0 then .exception { s with vm := { s.vm with trap := FARITH } }
      else if s.a = 2147483648 ∧ s.b = 4294967295 then .hostUB s
      else .next { s with a := ofInt32 (Int.tdiv (toInt32 s.a) (toInt32 s.b)) }
  | .DIVI =>
      let t := shr8s imm
      if t = 0 then .exception { s with vm := { s.vm with trap := FARITH } }
      else if s.a = 2147483648 ∧ t = 4294967295 then .hostUB s
      else .next { s with a := ofInt32 (Int.tdiv (toInt32 s.a) (toInt32 t)) }
  | .DIVL =>
      if imm < s.fsp then
        let t := load32 s.vm.mem (add32 s.xsp (shr8s imm))
        if t = 0 then .exception { s with vm := { s.vm with trap := FARITH } }
        else if s.a = 2147483648 ∧ t = 4294967295 then .hostUB s
        else .next { s with a := ofInt32 (Int.tdiv (toInt32 s.a) (toInt32 t)) }
      else
        let v := add32 (sub32 s.xsp s.tsp) (shr8s imm)
        let r := treadAt s v
        if r.1 = 0 then .exception r.2
        else
          let t := load32 r.2.vm.mem ((v ^^^ r.1) &&& mask4)
          if t = 0 then .exception { r.2 with vm := { r.2.vm with trap := FARITH } }
          else if r.2.a = 2147483648 ∧ t = 4294967295 then .hostUB r.2
          else
            let s2 : EmState := { r.2 with a := ofInt32 (Int.tdiv (toInt32 r.2.a) (toInt32 t)) }
            if s2.fsp ≠ 0 ∨ (v ^^^ sub32 s2.xsp s2.tsp) &&& maskPage ≠ 0
            then .next s2 else .gofixsp s2
  | .DVU =>
      if s.b = 0 then .exception { s with vm := { s.vm with trap := FARITH } }
      else .next { s with a := s.a / s.b }
  | .DVUI =>
      let t := shr8s imm
      if t = 0 then .exception { s with vm := { s.vm with trap := FARITH } }
      else .next { s with a := s.a / t }
  | .DVUL =>
      if imm < s.fsp then
        let t := load32 s.vm.mem (add32 s.xsp (shr8s imm))
        if t = 0 then .exception { s with vm := { s.vm with trap := FARITH } }
        else .next { s with a := s.a / t }
      else
        let v := add32 (sub32 s.xsp s.tsp) (shr8s imm)
        let r := treadAt s v
        if r.1 = 0 then .exception r.2
        else
          let t := load32 r.2.vm.mem ((v ^^^ r.1) &&& mask4)
          if t = 0 then .exception { r.2 with vm := { r.2.vm with trap := FARITH } }
          else
            let s2 : EmState := { r.2 with a := r.2.a / t }
            if s2.fsp ≠ 0 ∨ (v ^^^ sub32 s2.xsp s2.tsp) &&& maskPage ≠ 0
            then .next s2 else .gofixsp s2
  | .MOD =>
      if s.b = 0 ∨ (s.a = 2147483648 ∧ s.b = 4294967295) then .hostUB s
      else .next { s with a := ofInt32 (Int.tmod (toInt32 s.a) (toInt32 s.b)) }
  | .MODI =>
      let t := shr8s imm
      if t = 0 ∨ (s.a = 2147483648 ∧ t = 4294967295) then .hostUB s
      else .next { s with a := ofInt32 (Int.tmod (toInt32 s.a) (toInt32 t)) }
  | .MODL =>
      if imm < s.fsp then
        let t := load32 s.vm.mem (add32 s.xsp (shr8s imm))
        if t = 0 ∨ (s.a = 2147483648 ∧ t = 4294967295) then .hostUB s
        else .next { s with a := ofInt32 (Int.tmod (toInt32 s.a) (toInt32 t)) }
      else
        let v := add32 (sub32 s.xsp s.tsp) (shr8s imm)
        let r := treadAt s v
        if r.1 = 0 then .exception r.2
        else
          let t := load32 r.2.vm.mem ((v ^^^ r.1) &&& mask4)
          if t = 0 ∨ (r.2.a = 2147483648 ∧ t = 4294967295) then .hostUB r.2
          else
            let s2 : EmState := { r.2 with a := ofInt32 (Int.tmod (toInt32 r.2.a) (toInt32 t)) }
            if s2.fsp ≠ 0 ∨ (v ^^^ sub32 s2.xsp s2.tsp) &&& maskPage ≠ 0
            then .next s2 else .gofixsp s2
  | .MDU =>
      if s.b = 0 then .hostUB s
      else .next { s with a := s.a % s.b }
  | .MDUI =>
      let t := shr8s imm
      if t = 0 then .hostUB s
      else .next { s with a := s.a % t }
  | .MDUL =>
      if imm < s.fsp then
        let t := load32 s.vm.mem (add32 s.xsp (shr8s imm))
        if t = 0 then .hostUB s
        else .next { s with a := s.a % t }
      else
        let v := add32 (sub32 s.xsp s.tsp) (shr8s imm)
        let r := treadAt s v
        if r.1 = 0 then .exception r.2
        else
          let t := load32 r.2.vm.mem ((v ^^^ r.1) &&& mask4)
          if t = 0 then .hostUB r.2
          else
            let s2 : EmState := { r.2 with a := r.2.a % t }
            if s2.fsp ≠ 0 ∨ (v ^^^ sub32 s2.xsp s2.tsp) &&& maskPage ≠ 0
            then .next s2 else .gofixsp s2
  | .SX =>
      let v := add32 s.b (shr8s imm)
      let r := twriteAt s v
      if r.1 = 0 then .exception r.2
      else .next { r.2 with vm := { r.2.vm with
        mem := store32 r.2.vm.mem ((v ^^^ r.1) &&& mask4) r.2.a } }
  | .CLI =>
      if s.user ≠ 0 then .exception { s with vm := { s.vm with trap := FPRIV } }
      else .next { s with a := s.iena, iena := 0 }
  | .STI =>
      if s.user ≠ 0 then .exception { s with vm := { s.vm with trap := FPRIV } }
      else if s.ipend ≠ 0 then
        .interrupt { s with
          vm := { s.vm with trap := s.ipend &&& neg32 s.ipend },
          ipend := s.ipend ^^^ (s.ipend &&& neg32 s.ipend), iena := 0 }
      else .next { s with iena := 1 }
  | .RTI =>
      if s.user ≠ 0 then .exception { s with vm := { s.vm with trap := FPRIV } }
      else
        let s0 := { s with xsp := sub32 s.xsp s.tsp, tsp := 0, fsp := 0 }
        let r1 := treadAt s0 s0.xsp
        if r1.1 = 0 then .fatal r1.2
        else
          let t := load32 r1.2.vm.mem ((r1.2.xsp ^^^ r1.1) &&& mask8)
          let s1 := { r1.2 with xsp := add32 r1.2.xsp 8 }
          let r2 := treadAt s1 s1.xsp
          if r2.1 = 0 then .fatal r2.2
          else
            let s2 := r2.2
            let pc := add32 (load32 s2.vm.mem ((s2.xsp ^^^ r2.1) &&& mask8)) s2.tpc
            let s3 := { s2 with
              xcycle := add32 s2.xcycle (sub32 pc s2.xpc),
              xsp := add32 s2.xsp 8, xpc := pc }
            let s4 : EmState :=
              if t &&& USER ≠ 0 then
                { s3 with ssp := s3.xsp, xsp := s3.usp, user := 1, curUser := true }
              else s3
            if s4.iena = 0 then
              if s4.ipend ≠ 0 then
                .interrupt { s4 with
                  vm := { s4.vm with trap := s4.ipend &&& neg32 s4.ipend },
                  ipend := s4.ipend ^^^ (s4.ipend &&& neg32 s4.ipend) }
              else .gofixpc { s4 with iena := 1 }
            else .gofixpc s4

/-- The ways the `cpu` function returns to `main`: guest `HALT` (with the
value of register A at that point), the backtick diagnostic exit, `BOUT`
with a file descriptor other than 1, or the `fatal` label. -/
inductive CpuOutcome where
  | halted : Nat → CpuOutcome
  | ungraceful : CpuOutcome
  | badBout : CpuOutcome
  | fatalStop : CpuOutcome

/-- The tail of `main` is `cpu(hdr.entry, memorySize - FS_SZ); return 0;`:
whatever made `cpu` return, the process exit code is 0. -/
def mainExitCode (o : CpuOutcome) : Int := 0

/-- Every startup failure in `main` (usage, open/stat/read failure, bad
magic) exits via `return -1` or `exit(-1)`. -/
def loadFailExitCode : Int := -1

/-- One of the four translation-cache quadrants. -/
inductive Quadrant where
  | kernelRead
  | kernelWrite
  | userRead
  | userWrite

/-- `lookup(v, quadrant)`: pure table read on `v >> 12`. -/
def lookupTC (m : MmuState) (q : Quadrant) (v : Nat) : Nat :=
  match q with
  | .kernelRead => m.kr (v >>> 12)
  | .kernelWrite => m.kw (v >>> 12)
  | .userRead => m.ur (v >>> 12)
  | .userWrite => m.uw (v >>> 12)

theorem add32_lt (x y : Nat) : add32 x y < wordSize := by
  unfold add32 wordSize
  omega

theorem add32_zero (x : Nat) (hx : x < wordSize) : add32 x 0 = x := by
  unfold add32 wordSize at *
  omega

theorem add32_add32 (x u n : Nat) : add32 (add32 x u) n = add32 x (u + n) := by
  unfold add32 wordSize
  omega

theorem sub32_add32_cancel (x t : Nat) (hx : x < wordSize) : sub32 (add32 x t) t = x := by
  unfold sub32 add32 wordSize at *
  omega

/-- Translation-cache states reachable from the all-zero startup state
(tables allocated zeroed, empty populated list) by any sequence of
`setpage` installs and `flush`es. -/
inductive ReachableTC : MmuState → Prop where
  | init (mem : Mem) (memory memorySize vmem pdir trap vadr : Nat) :
      ReachableTC { mem := mem, memory := memory, memorySize := memorySize, vmem := vmem,
                    pdir := pdir, kr := fun _ => 0, kw := fun _ => 0, ur := fun _ => 0,
                    uw := fun _ => 0, tpage := [], trap := trap, vadr := vadr }
  | install (m : MmuState) (v p w u : Nat) :
      ReachableTC m → ReachableTC (setpage m v p w u).2
  | doflush (m : MmuState) : ReachableTC m → ReachableTC (flush m)

theorem flushTables_eval (l : List Nat) (kr kw ur uw : Nat → Nat) (x : Nat) :
    (flushTables l kr kw ur uw).1 x = (if x ∈ l then 0 else kr x)
    ∧ (flushTables l kr kw ur uw).2.1 x = (if x ∈ l then 0 else kw x)
    ∧ (flushTables l kr kw ur uw).2.2.1 x = (if x ∈ l then 0 else ur x)
    ∧ (flushTables l kr kw ur uw).2.2.2 x = (if x ∈ l then 0 else uw x) := by
  induction l generalizing kr kw ur uw with
  | nil => simp [flushTables]
  | cons v l ih =>
      obtain ⟨h1, h2, h3, h4⟩ := ih (upd kr v 0) (upd kw v 0) (upd ur v 0) (upd uw v 0)
      refine ⟨?_, ?_, ?_, ?_⟩ <;>
        simp only [flushTables, h1, h2, h3, h4, upd, List.mem_cons] <;>
        by_cases hxv : x = v <;> by_cases hxl : x ∈ l <;> simp [hxv, hxl]

theorem flush_kr (m : MmuState) (x : Nat) :
    (flush m).kr x = (if x ∈ m.tpage then 0 else m.kr x) :=
  (flushTables_eval m.tpage m.kr m.kw m.ur m.uw x).1

theorem flush_kw (m : MmuState) (x : Nat) :
    (flush m).kw x = (if x ∈ m.tpage then 0 else m.kw x) :=
  (flushTables_eval m.tpage m.kr m.kw m.ur m.uw x).2.1

theorem flush_ur (m : MmuState) (x : Nat) :
    (flush m).ur x = (if x ∈ m.tpage then 0 else m.ur x) :=
  (flushTables_eval m.tpage m.kr m.kw m.ur m.uw x).2.2.1

theorem flush_uw (m : MmuState) (x : Nat) :
    (flush m).uw x = (if x ∈ m.tpage then 0 else m.uw x) :=
  (flushTables_eval m.tpage m.kr m.kw m.ur m.uw x).2.2.2

theorem flush_tpage (m : MmuState) : (flush m).tpage = [] := rfl

/-- The translation-cache invariant: the populated list has no
duplicates, lists exactly the VPNs with a nonzero kernel-read entry, and
an empty kernel-read entry forces the other three quadrants empty. -/
def TCInv (m : MmuState) : Prop :=
  m.tpage.Nodup
  ∧ (∀ x, x ∈ m.tpage ↔ m.kr x ≠ 0)
  ∧ (∀ x, m.kr x = 0 → m.kw x = 0 ∧ m.ur x = 0 ∧ m.uw x = 0)

theorem tcInv_flush (m : MmuState) (h : TCInv m) : TCInv (flush m) := by
  obtain ⟨hnd, hmem, hz⟩ := h
  have hkr : ∀ x, (flush m).kr x = 0 := by
    intro x
    rw [flush_kr]
    split
    · rfl
    · rename_i hx
      by_contra hne
      exact hx ((hmem x).mpr hne)
  refine ⟨by simp [flush_tpage], ?_, ?_⟩
  · intro x
    rw [flush_tpage]
    simp [hkr x]
  · intro x _
    rw [flush_kw, flush_ur, flush_uw]
    split
    · exact ⟨rfl, rfl, rfl⟩
    · rename_i hx
      have hk : m.kr x = 0 := by
        by_contra hne
        exact hx ((hmem x).mpr hne)
      exact hz x hk

theorem tcInv_setpage (m : MmuState) (v p w u : Nat) (h : TCInv m) :
    TCInv (setpage m v p w u).2 := by
  obtain ⟨hnd, hmem, hz⟩ := h
  unfold setpage
  split
  · exact ⟨hnd, hmem, hz⟩
  · rename_i hp
    set e := ((v ^^^ add32 m.memory p) &&& maskPage) + 1 with he
    have hene : e ≠ 0 := Nat.succ_ne_zero _
    set vp := v >>> 12 with hvp
    by_cases hkr : m.kr vp = 0
    · by_cases hcap : TPAGES ≤ m.tpage.length
      · -- at capacity: flush first, then append
        simp only [if_pos hkr, if_pos hcap]
        have hfkr := flush_kr m
        have hfkw := flush_kw m
        have hfur := flush_ur m
        have hfuw := flush_uw m
        have hall : ∀ x, (flush m).kr x = 0 := by
          intro x
          rw [hfkr]
          split
          · rfl
          · rename_i hx
            by_contra hne
            exact hx ((hmem x).mpr hne)
        refine ⟨?_, ?_, ?_⟩
        · simp [flush_tpage]
        · intro x
          simp only [upd, flush_tpage, List.nil_append, List.mem_singleton]
          by_cases hxv : x = vp <;> simp [hxv, hene, hall]
        · intro x
          simp only [upd]
          by_cases hxv : x = vp
          · simp [hxv, hene]
          · simp only [if_neg hxv]
            intro hx0
            rw [hfkw, hfur, hfuw]
            rcases Classical.em (x ∈ m.tpage) with hx | hx
            · simp [hx]
            · have hk : m.kr x = 0 := by
                by_contra hne
                exact hx ((hmem x).mpr hne)
              simp [hx, hz x hk]
      · -- below capacity: append to the existing list
        simp only [if_pos hkr, if_neg hcap]
        have hnv : vp ∉ m.tpage := by
          intro hx
          exact ((hmem vp).mp hx) hkr
        refine ⟨?_, ?_, ?_⟩
        · rw [List.nodup_append]
          refine ⟨hnd, List.nodup_singleton _, ?_⟩
          intro a ha hb
          rw [List.mem_singleton] at hb
          exact hnv (hb ▸ ha)
        · intro x
          simp only [upd, List.mem_append, List.mem_singleton]
          by_cases hxv : x = vp <;> simp [hxv, hene, hmem x]
        · intro x
          simp only [upd]
          by_cases hxv : x = vp
          · simp [hxv, hene]
          · simp only [if_neg hxv]
            exact hz x
    · -- kernel-read already populated: list unchanged
      simp only [if_neg hkr]
      refine ⟨hnd, ?_, ?_⟩
      · intro x
        simp only [upd]
        by_cases hxv : x = vp
        · simp [hxv, hene, (hmem vp).mpr hkr]
        · simp [hxv, hmem x]
      · intro x
        simp only [upd]
        by_cases hxv : x = vp
        · simp [hxv, hene]
        · simp only [if_neg hxv]
          exact hz x

theorem reachable_tcInv (m : MmuState) (h : ReachableTC m) : TCInv m := by
  induction h with
  | init mem memory memorySize vmem pdir trap vadr =>
      exact ⟨List.nodup_nil, by simp, by simp⟩
  | install m v p w u _ ih => exact tcInv_setpage m v p w u ih
  | doflush m _ ih => exact tcInv_flush m ih

theorem ite_flag_ne (c : Prop) [Decidable c] (x y : Nat) :
    (if (if c then (1 : Nat) else 0) ≠ 0 then x else y) = if c then x else y := by
  by_cases h : c <;> simp [h]

/-- Quadrant contents after a successful `setpage`. -/
theorem setpage_inst (m : MmuState) (v p w u : Nat) (hp : p < m.memorySize) :
    (setpage m v p w u).1 = ((v ^^^ add32 m.memory p) &&& maskPage) + 1
    ∧ (setpage m v p w u).2.kr (v >>> 12) = (setpage m v p w u).1
    ∧ (setpage m v p w u).2.kw (v >>> 12) =
        (if w ≠ 0 then (setpage m v p w u).1 else 0)
    ∧ (setpage m v p w u).2.ur (v >>> 12) =
        (if u ≠ 0 then (setpage m v p w u).1 else 0)
    ∧ (setpage m v p w u).2.uw (v >>> 12) =
        (if u ≠ 0 ∧ w ≠ 0 then (setpage m v p w u).1 else 0) := by
  have hnp := Nat.not_le.mpr hp
  refine ⟨?_, ?_, ?_, ?_, ?_⟩ <;> simp [setpage, hnp, upd]

/-- Reduction of a successful read-side walk to its final `setpage` call:
with paging on, PDE present and in bounds, and the PTE present and
user-accessible (or kernel ring), `rlook` installs `pte` with
`writable = (pte & PTE_D) && (q & PTE_W)` and `userable = q & PTE_U`,
from the memory `mB` holding the accessed-bit write-backs. -/
theorem rlook_reduce (m : MmuState) (user v ppde pde ppte pte q : Nat) (mA mB : Mem)
    (hvm : m.vmem ≠ 0)
    (hppde : ppde = add32 m.pdir ((v >>> 22) <<< 2))
    (hpde : pde = load32 m.mem ppde)
    (hP : pde &&& PTE_P ≠ 0)
    (hmA : mA = (if pde &&& PTE_A = 0 then store32 m.mem ppde (pde ||| PTE_A) else m.mem))
    (hsz : pde < m.memorySize)
    (hppte : ppte = add32 m.memory ((pde &&& maskPage) + ((v >>> 10) &&& 4092)))
    (hpte : pte = load32 mA ppte)
    (hq : q = pte &&& pde)
    (hPp : pte &&& PTE_P ≠ 0)
    (hup : q &&& PTE_U ≠ 0 ∨ user = 0)
    (hmB : mB = (if pte &&& PTE_A = 0 then store32 mA ppte (pte ||| PTE_A) else mA)) :
    rlook m user v = setpage { m with mem := mB } v pte
      (if pte &&& PTE_D ≠ 0 ∧ q &&& PTE_W ≠ 0 then 1 else 0) (q &&& PTE_U) := by
  have hm1 : (if pde &&& PTE_A = 0
      then { m with mem := store32 m.mem ppde (pde ||| PTE_A) } else m)
      = { m with mem := mA } := by
    rw [hmA]
    split <;> rfl
  simp only [rlook]
  rw [if_neg hvm, ← hppde, ← hpde, if_pos hP, hm1]
  dsimp only
  rw [if_neg (Nat.not_le.mpr hsz), ← hppte, ← hpte, ← hq, if_pos (And.intro hPp hup)]
  have hm2 : (if pte &&& PTE_A = 0
      then { m with mem := store32 mA ppte (pte ||| PTE_A) } else { m with mem := mA })
      = { m with mem := mB } := by
    rw [hmB]
    split <;> rfl
  rw [hm2]

/-- Reduction of a successful write-side walk to its final `setpage`
call: under the read-walk success conditions plus `q & PTE_W`, `wlook`
installs `pte` with `writable = q & PTE_W` and `userable = q & PTE_U`,
from the memory `mW` holding the accessed/dirty write-backs. -/
theorem wlook_reduce (m : MmuState) (user v ppde pde ppte pte q : Nat) (mA mW : Mem)
    (hvm : m.vmem ≠ 0)
    (hppde : ppde = add32 m.pdir ((v >>> 22) <<< 2))
    (hpde : pde = load32 m.mem ppde)
    (hP : pde &&& PTE_P ≠ 0)
    (hmA : mA = (if pde &&& PTE_A = 0 then store32 m.mem ppde (pde ||| PTE_A) else m.mem))
    (hsz : pde < m.memorySize)
    (hppte : ppte = add32 m.memory ((pde &&& maskPage) + ((v >>> 10) &&& 4092)))
    (hpte : pte = load32 mA ppte)
    (hq : q = pte &&& pde)
    (hPp : pte &&& PTE_P ≠ 0)
    (hup : q &&& PTE_U ≠ 0 ∨ user = 0)
    (hW : q &&& PTE_W ≠ 0)
    (hmW : mW = (if pte &&& (PTE_D ||| PTE_A) ≠ PTE_D ||| PTE_A
                 then store32 mA ppte (pte ||| (PTE_D ||| PTE_A)) else mA)) :
    wlook m user v = setpage { m with mem := mW } v pte (q &&& PTE_W) (q &&& PTE_U) := by
  have hm1 : (if pde &&& PTE_A = 0
      then { m with mem := store32 m.mem ppde (pde ||| PTE_A) } else m)
      = { m with mem := mA } := by
    rw [hmA]
    split <;> rfl
  simp only [wlook]
  rw [if_neg hvm, ← hppde, ← hpde, if_pos hP, hm1]
  dsimp only
  rw [if_neg (Nat.not_le.mpr hsz), ← hppte, ← hpte, ← hq,
    if_pos (And.intro hPp (And.intro hup hW))]
  have hm2 : (if pte &&& (PTE_D ||| PTE_A) ≠ PTE_D ||| PTE_A
      then { m with mem := store32 mA ppte (pte ||| (PTE_D ||| PTE_A)) }
      else { m with mem := mA })
      = { m with mem := mW } := by
    rw [hmW]
    split <;> rfl
  rw [hm2]

/-- A concrete startup MMU state (zeroed tables, empty list, the default
128 MiB memory size, physical memory based at host address 0). -/
def baseMmu : MmuState :=
  { mem := fun _ => 0, memory := 0, memorySize := 134217728, vmem := 0,
    pdir := 0, kr := fun _ => 0, kw := fun _ => 0, ur := fun _ => 0,
    uw := fun _ => 0, tpage := [], trap := 0, vadr := 0 }

/-- A concrete machine state over `baseMmu` with all registers zero. -/
def baseState : EmState :=
  { vm := baseMmu, a := 0, b := 0, c := 0, xpc := 0, tpc := 0, fpc := 0,
    xsp := 0, tsp := 0, fsp := 0, ssp := 0, usp := 0, user := 0, iena := 0,
    ipend := 0, ivec := 0, curUser := false, xcycle := 0 }

/-- C1: the claim states that every division *and* modulus opcode with a
zero divisor sets `trap = FARITH` and leaves A unchanged.  The `DIV`/`DVU`
cases of `em.c` do exactly that (the exception state differs from the
input state only in `trap`, so A is untouched), but the `MOD`/`MDU` cases
perform the C `%` with no zero check at all: with a zero divisor that is
undefined behaviour (SIGFPE on the host), modelled as `Step.hostUB`, and
no trap is set — the code contradicts the claim for the modulus family. -/
theorem em_C1 (s : EmState) (imm : Nat) (h : s.b = 0) :
    execInstr Op.DIV imm s = Step.exception { s with vm := { s.vm with trap := FARITH } }
    ∧ execInstr Op.DVU imm s = Step.exception { s with vm := { s.vm with trap := FARITH } }
    ∧ execInstr Op.MOD imm s = Step.hostUB s
    ∧ execInstr Op.MDU imm s = Step.hostUB s := by
  refine ⟨?_, ?_, ?_, ?_⟩ <;> simp [execInstr, h]

/-- Witness for C1 at a concrete state with B = 0. -/
theorem em_C1_w :
    execInstr Op.DIV 0 baseState = Step.exception { baseState with vm := { baseState.vm with trap := FARITH } }
    ∧ execInstr Op.DVU 0 baseState = Step.exception { baseState with vm := { baseState.vm with trap := FARITH } }
    ∧ execInstr Op.MOD 0 baseState = Step.hostUB baseState
    ∧ execInstr Op.MDU 0 baseState = Step.hostUB baseState :=
  em_C1 baseState 0 rfl

/-- C2, counterexample: the claim demands a nonzero exit code when the
guest halts with A ≠ 0, but `main` ends with `cpu(...); return 0;` — the
`HALT` case returns from `cpu` without inspecting A (beyond a diagnostic
print), and `main` then returns 0.  At the explicit input A = 1 the
process exit code is 0, not nonzero. -/
theorem em_C2_cex :
    execInstr Op.HALT 0 { baseState with a := 1 } = Step.halt { baseState with a := 1 }
    ∧ ({ baseState with a := 1 } : EmState).a = 1
    ∧ mainExitCode (CpuOutcome.halted 1) = 0 :=
  ⟨rfl, rfl, rfl⟩

/-- C2 as amended: `HALT` makes `cpu` return for every value of A and
every ring, the process exit code after any `cpu` return is 0, and only
the startup/load failures of `main` exit nonzero (with -1). -/
theorem em_C2_amended :
    (∀ imm s, execInstr Op.HALT imm s = Step.halt s)
    ∧ (∀ o, mainExitCode o = 0)
    ∧ loadFailExitCode = -1 :=
  ⟨fun _ _ => rfl, fun _ => rfl, rfl⟩

/-- C4: in every translation-cache state reachable from the all-zero
startup state by `setpage`/`flush` sequences, the populated-VPN list is
duplicate-free, lists every VPN with a nonzero quadrant, and only VPNs
with a nonzero quadrant; and a `setpage` on a VPN whose four quadrants
are all zero appends that VPN to the list, flushing the whole cache
first when the list already holds `TPAGES = 4096` entries. -/
theorem em_C4 (m : MmuState) (h : ReachableTC m) :
    m.tpage.Nodup
    ∧ (∀ x, m.kr x ≠ 0 ∨ m.kw x ≠ 0 ∨ m.ur x ≠ 0 ∨ m.uw x ≠ 0 → x ∈ m.tpage)
    ∧ (∀ x, x ∈ m.tpage → m.kr x ≠ 0 ∨ m.kw x ≠ 0 ∨ m.ur x ≠ 0 ∨ m.uw x ≠ 0)
    ∧ (∀ v p w u, m.kr (v >>> 12) = 0 → m.kw (v >>> 12) = 0 → m.ur (v >>> 12) = 0 →
        m.uw (v >>> 12) = 0 → p < m.memorySize →
        (setpage m v p w u).2.tpage =
          (if TPAGES ≤ m.tpage.length then [] else m.tpage) ++ [v >>> 12]) := by
  obtain ⟨hnd, hmem, hz⟩ := reachable_tcInv m h
  refine ⟨hnd, ?_, ?_, ?_⟩
  · intro x hx
    by_cases hk : m.kr x = 0
    · obtain ⟨h1, h2, h3⟩ := hz x hk
      rcases hx with hx | hx | hx | hx <;> [exact absurd hk hx; exact absurd h1 hx;
        exact absurd h2 hx; exact absurd h3 hx]
    · exact (hmem x).mpr hk
  · intro x hx
    exact Or.inl ((hmem x).mp hx)
  · intro v p w u h1 _ _ _ hp
    simp only [setpage, if_neg (Nat.not_le.mpr hp), if_pos h1]
    by_cases hcap : TPAGES ≤ m.tpage.length <;> simp [hcap, flush_tpage]

/-- Witness for C4 at the startup state (reachable by the empty
sequence). -/
theorem em_C4_w :
    baseMmu.tpage.Nodup
    ∧ (∀ x, baseMmu.kr x ≠ 0 ∨ baseMmu.kw x ≠ 0 ∨ baseMmu.ur x ≠ 0 ∨ baseMmu.uw x ≠ 0 →
        x ∈ baseMmu.tpage)
    ∧ (∀ x, x ∈ baseMmu.tpage →
        baseMmu.kr x ≠ 0 ∨ baseMmu.kw x ≠ 0 ∨ baseMmu.ur x ≠ 0 ∨ baseMmu.uw x ≠ 0)
    ∧ (∀ v p w u, baseMmu.kr (v >>> 12) = 0 → baseMmu.kw (v >>> 12) = 0 →
        baseMmu.ur (v >>> 12) = 0 → baseMmu.uw (v >>> 12) = 0 → p < baseMmu.memorySize →
        (setpage baseMmu v p w u).2.tpage =
          (if TPAGES ≤ baseMmu.tpage.length then [] else baseMmu.tpage) ++ [v >>> 12]) :=
  em_C4 baseMmu (ReachableTC.init (fun _ => 0) 0 134217728 0 0 0 0)

/-- C5: `setpage(v, p, writable, userable)` fails with `FMEM`, latching
`vadr = v` and writing no quadrant (the failure state differs from the
input only in `trap` and `vadr`), whenever the physical address reaches
the physical-memory size; otherwise it returns the XOR-encoded entry,
stores it in the kernel-read quadrant of VPN `v >> 12` unconditionally,
in kernel-write iff `writable`, in user-read iff `userable`, and in
user-write iff both. -/
theorem em_C5 (m : MmuState) (v p w u : Nat) :
    (m.memorySize ≤ p → setpage m v p w u = (0, { m with trap := FMEM, vadr := v }))
    ∧ (p < m.memorySize →
        (setpage m v p w u).1 = ((v ^^^ add32 m.memory p) &&& maskPage) + 1
        ∧ (setpage m v p w u).2.kr (v >>> 12) = (setpage m v p w u).1
        ∧ (setpage m v p w u).2.kw (v >>> 12) =
            (if w ≠ 0 then (setpage m v p w u).1 else 0)
        ∧ (setpage m v p w u).2.ur (v >>> 12) =
            (if u ≠ 0 then (setpage m v p w u).1 else 0)
        ∧ (setpage m v p w u).2.uw (v >>> 12) =
            (if u ≠ 0 ∧ w ≠ 0 then (setpage m v p w u).1 else 0)) := by
  constructor
  · intro hp
    simp [setpage, hp]
  · exact setpage_inst m v p w u

/-- Witness for C5: the failing branch at a physical address beyond the
128 MiB memory size, and the installing branch at VPN 1. -/
theorem em_C5_w :
    setpage baseMmu 5 134217728 1 1 = (0, { baseMmu with trap := FMEM, vadr := 5 })
    ∧ ((setpage baseMmu 4096 8192 1 0).1 = ((4096 ^^^ add32 baseMmu.memory 8192) &&& maskPage) + 1
        ∧ (setpage baseMmu 4096 8192 1 0).2.kr (4096 >>> 12) = (setpage baseMmu 4096 8192 1 0).1
        ∧ (setpage baseMmu 4096 8192 1 0).2.kw (4096 >>> 12) =
            (if (1 : Nat) ≠ 0 then (setpage baseMmu 4096 8192 1 0).1 else 0)
        ∧ (setpage baseMmu 4096 8192 1 0).2.ur (4096 >>> 12) =
            (if (0 : Nat) ≠ 0 then (setpage baseMmu 4096 8192 1 0).1 else 0)
        ∧ (setpage baseMmu 4096 8192 1 0).2.uw (4096 >>> 12) =
            (if (0 : Nat) ≠ 0 ∧ (1 : Nat) ≠ 0 then (setpage baseMmu 4096 8192 1 0).1 else 0)) :=
  ⟨(em_C5 baseMmu 5 134217728 1 1).1 (by show (134217728 : Nat) ≤ 134217728; norm_num),
   (em_C5 baseMmu 4096 8192 1 0).2 (by show (8192 : Nat) < 134217728; norm_num)⟩

/-- C9: in every reachable translation-cache state, a `flush()` followed
by `lookup(v, q)` yields 0 for every virtual address and every quadrant,
and a second `flush()` leaves the cache and the populated list exactly
as the first left them. -/
theorem em_C9 (m : MmuState) (h : ReachableTC m) :
    (∀ q v, lookupTC (flush m) q v = 0) ∧ flush (flush m) = flush m := by
  obtain ⟨hnd, hmem, hz⟩ := reachable_tcInv m h
  constructor
  · have hall : ∀ x, (flush m).kr x = 0 ∧ (flush m).kw x = 0
        ∧ (flush m).ur x = 0 ∧ (flush m).uw x = 0 := by
      intro x
      rw [flush_kr, flush_kw, flush_ur, flush_uw]
      by_cases hx : x ∈ m.tpage
      · simp [hx]
      · have hk : m.kr x = 0 := by
          by_contra hne
          exact hx ((hmem x).mpr hne)
        simp [hx, hk, hz x hk]
    intro q v
    cases q with
    | kernelRead => exact (hall (v >>> 12)).1
    | kernelWrite => exact (hall (v >>> 12)).2.1
    | userRead => exact (hall (v >>> 12)).2.2.1
    | userWrite => exact (hall (v >>> 12)).2.2.2
  · rfl

/-- Witness for C9 at the startup state. -/
theorem em_C9_w :
    (∀ q v, lookupTC (flush baseMmu) q v = 0) ∧ flush (flush baseMmu) = flush baseMmu :=
  em_C9 baseMmu (ReachableTC.init (fun _ => 0) 0 134217728 0 0 0 0)

/-- C10: `CLI` in the kernel ring copies the previous interrupt-enable
flag into A and then clears `iena`; in the user ring it raises `FPRIV`
(the exception state differs from the input only in `trap`, so both A
and `iena` are untouched). -/
theorem em_C10 (s : EmState) (imm : Nat) :
    execInstr Op.CLI imm s =
      (if s.user ≠ 0 then Step.exception { s with vm := { s.vm with trap := FPRIV } }
       else Step.next { s with a := s.iena, iena := 0 }) := rfl

/-- C3: whenever the read-side walk succeeds (paging on, PDE present and
in bounds, PTE present, user-accessible or kernel ring, physical page in
bounds), `rlook` installs the entry with
`writable = (pte & PTE_D) && (q & PTE_W)` and `userable = q & PTE_U`
where `q = pte & pde` — visible in the four quadrants it leaves behind —
and the write-side walk (additionally requiring `q & PTE_W`) installs
with `writable = q & PTE_W`; consequently the read path never caches a
page as writable unless the guest PTE's dirty bit is already set.  The
hypotheses name the walk's intermediate values by equations (`mA` is the
memory after the PDE accessed-bit update). -/
theorem em_C3 (m : MmuState) (user v ppde pde ppte pte q e : Nat) (mA : Mem)
    (hvm : m.vmem ≠ 0)
    (hppde : ppde = add32 m.pdir ((v >>> 22) <<< 2))
    (hpde : pde = load32 m.mem ppde)
    (hP : pde &&& PTE_P ≠ 0)
    (hmA : mA = (if pde &&& PTE_A = 0 then store32 m.mem ppde (pde ||| PTE_A) else m.mem))
    (hsz : pde < m.memorySize)
    (hppte : ppte = add32 m.memory ((pde &&& maskPage) + ((v >>> 10) &&& 4092)))
    (hpte : pte = load32 mA ppte)
    (hq : q = pte &&& pde)
    (hPp : pte &&& PTE_P ≠ 0)
    (hup : q &&& PTE_U ≠ 0 ∨ user = 0)
    (hps : pte < m.memorySize)
    (he : e = ((v ^^^ add32 m.memory pte) &&& maskPage) + 1) :
    ((rlook m user v).1 = e
     ∧ (rlook m user v).2.kr (v >>> 12) = e
     ∧ (rlook m user v).2.kw (v >>> 12) =
         (if pte &&& PTE_D ≠ 0 ∧ q &&& PTE_W ≠ 0 then e else 0)
     ∧ (rlook m user v).2.ur (v >>> 12) = (if q &&& PTE_U ≠ 0 then e else 0)
     ∧ (rlook m user v).2.uw (v >>> 12) =
         (if q &&& PTE_U ≠ 0 ∧ (pte &&& PTE_D ≠ 0 ∧ q &&& PTE_W ≠ 0) then e else 0)
     ∧ ((rlook m user v).2.kw (v >>> 12) ≠ 0 → pte &&& PTE_D ≠ 0))
    ∧ (q &&& PTE_W ≠ 0 →
        (wlook m user v).1 = e
        ∧ (wlook m user v).2.kr (v >>> 12) = e
        ∧ (wlook m user v).2.kw (v >>> 12) = e
        ∧ (wlook m user v).2.ur (v >>> 12) = (if q &&& PTE_U ≠ 0 then e else 0)
        ∧ (wlook m user v).2.uw (v >>> 12) = (if q &&& PTE_U ≠ 0 then e else 0)) := by
  constructor
  · have hr := rlook_reduce m user v ppde pde ppte pte q mA
      (if pte &&& PTE_A = 0 then store32 mA ppte (pte ||| PTE_A) else mA)
      hvm hppde hpde hP hmA hsz hppte hpte hq hPp hup rfl
    have hi := setpage_inst { m with mem :=
        (if pte &&& PTE_A = 0 then store32 mA ppte (pte ||| PTE_A) else mA) }
      v pte (if pte &&& PTE_D ≠ 0 ∧ q &&& PTE_W ≠ 0 then 1 else 0) (q &&& PTE_U) hps
    rw [hr]
    obtain ⟨h1, h2, h3, h4, h5⟩ := hi
    rw [ite_flag_ne] at h3
    refine ⟨by rw [h1, he], by rw [h2, h1, he], by rw [h3, h1, he], ?_, ?_, ?_⟩
    · rw [h4, h1, he]
    · rw [h5, h1, he]
      by_cases hu2 : q &&& PTE_U ≠ 0 <;>
        by_cases hdw : pte &&& PTE_D ≠ 0 ∧ q &&& PTE_W ≠ 0 <;>
        simp [hu2, hdw]
    · rw [h3]
      intro hne
      by_contra hd
      simp [hd] at hne
  · intro hW
    have hr := wlook_reduce m user v ppde pde ppte pte q mA
      (if pte &&& (PTE_D ||| PTE_A) ≠ PTE_D ||| PTE_A
       then store32 mA ppte (pte ||| (PTE_D ||| PTE_A)) else mA)
      hvm hppde hpde hP hmA hsz hppte hpte hq hPp hup hW rfl
    have hi := setpage_inst { m with mem :=
        (if pte &&& (PTE_D ||| PTE_A) ≠ PTE_D ||| PTE_A
         then store32 mA ppte (pte ||| (PTE_D ||| PTE_A)) else mA) }
      v pte (q &&& PTE_W) (q &&& PTE_U) hps
    rw [hr]
    obtain ⟨h1, h2, h3, h4, h5⟩ := hi
    refine ⟨by rw [h1, he], by rw [h2, h1, he], ?_, by rw [h4, h1, he], ?_⟩
    · rw [h3, h1, he]
      simp [hW]
    · rw [h5, h1, he]
      simp [hW]

/-- A concrete MMU state with paging on: the page directory at host
address 4096 maps directory index 0 to a page table at 8192 (PDE
`0x2000 | P|W|U|A` = 8231), whose entry 0 maps to physical page 0x3000
with all of `P|W|U|A|D` set (PTE = 12391). -/
def walkMmu : MmuState :=
  { mem := store32 (store32 (fun _ => 0) 4096 8231) 8192 12391, memory := 0,
    memorySize := 134217728, vmem := 1, pdir := 4096, kr := fun _ => 0,
    kw := fun _ => 0, ur := fun _ => 0, uw := fun _ => 0, tpage := [],
    trap := 0, vadr := 0 }

/-- Witness for C3 at the concrete walk of `walkMmu` for virtual address
0 in the kernel ring. -/
theorem em_C3_w :
    ((rlook walkMmu 0 0).1 = 12289
     ∧ (rlook walkMmu 0 0).2.kr (0 >>> 12) = 12289
     ∧ (rlook walkMmu 0 0).2.kw (0 >>> 12) =
         (if (12391 : Nat) &&& PTE_D ≠ 0 ∧ (8231 : Nat) &&& PTE_W ≠ 0 then 12289 else 0)
     ∧ (rlook walkMmu 0 0).2.ur (0 >>> 12) = (if (8231 : Nat) &&& PTE_U ≠ 0 then 12289 else 0)
     ∧ (rlook walkMmu 0 0).2.uw (0 >>> 12) =
         (if (8231 : Nat) &&& PTE_U ≠ 0 ∧ ((12391 : Nat) &&& PTE_D ≠ 0 ∧ (8231 : Nat) &&& PTE_W ≠ 0)
          then 12289 else 0)
     ∧ ((rlook walkMmu 0 0).2.kw (0 >>> 12) ≠ 0 → (12391 : Nat) &&& PTE_D ≠ 0))
    ∧ ((8231 : Nat) &&& PTE_W ≠ 0 →
        (wlook walkMmu 0 0).1 = 12289
        ∧ (wlook walkMmu 0 0).2.kr (0 >>> 12) = 12289
        ∧ (wlook walkMmu 0 0).2.kw (0 >>> 12) = 12289
        ∧ (wlook walkMmu 0 0).2.ur (0 >>> 12) = (if (8231 : Nat) &&& PTE_U ≠ 0 then 12289 else 0)
        ∧ (wlook walkMmu 0 0).2.uw (0 >>> 12) = (if (8231 : Nat) &&& PTE_U ≠ 0 then 12289 else 0)) :=
  em_C3 walkMmu 0 0 4096 8231 8192 12391 8231 12289 walkMmu.mem
    (by decide) (by decide) (by decide) (by decide) ((if_neg (by decide)).symm) (by decide)
    (by decide) (by decide) (by decide) (by decide) (Or.inl (by decide))
    (by decide) (by decide)

/-- C7: a kernel-ring `STI` that finds `ipend` nonzero delivers exactly
the lowest-set pending bit `ipend & -ipend` as the trap, clears that bit
(`ipend ^= trap`), and leaves `iena` at 0 rather than enabling; only
with `ipend = 0` does it set `iena = 1`.  A kernel-ring `RTI` whose two
stack pops hit the translation cache and that finds `iena` still 0
after popping behaves the same way: nonzero `ipend` is tail-chained into
delivery with the lowest-set bit as trap, cleared from `ipend`, with
`iena` still 0; only with `ipend = 0` does the epilogue set `iena = 1`
and resume at `fixpc`. -/
theorem em_C7 (s : EmState) (imm : Nat)
    (hk : s.user = 0)
    (hcu : s.curUser = false)
    (hr1 : s.vm.kr ((sub32 s.xsp s.tsp) >>> 12) ≠ 0)
    (hr2 : s.vm.kr ((add32 (sub32 s.xsp s.tsp) 8) >>> 12) ≠ 0) :
    (s.ipend ≠ 0 →
      execInstr Op.STI imm s = Step.interrupt { s with
        vm := { s.vm with trap := s.ipend &&& neg32 s.ipend },
        ipend := s.ipend ^^^ (s.ipend &&& neg32 s.ipend), iena := 0 })
    ∧ (s.ipend = 0 → execInstr Op.STI imm s = Step.next { s with iena := 1 })
    ∧ (s.iena = 0 → s.ipend ≠ 0 →
        (execInstr Op.RTI imm s).isIntr = true
        ∧ (execInstr Op.RTI imm s).stateOf.vm.trap = s.ipend &&& neg32 s.ipend
        ∧ (execInstr Op.RTI imm s).stateOf.ipend = s.ipend ^^^ (s.ipend &&& neg32 s.ipend)
        ∧ (execInstr Op.RTI imm s).stateOf.iena = 0)
    ∧ (s.iena = 0 → s.ipend = 0 →
        (execInstr Op.RTI imm s).isFixpc = true
        ∧ (execInstr Op.RTI imm s).stateOf.iena = 1) := by
  refine ⟨?_, ?_, ?_, ?_⟩
  · intro hip
    simp [execInstr, hk, hip]
  · intro hip
    simp [execInstr, hk, hip]
  · intro hie hip
    simp only [execInstr, hk]
    rw [if_neg (by simp [hk])]
    simp only [treadAt, curRead, hcu]
    simp only [if_neg (by simp : ¬ (false = true))]
    simp [hr1, hr2, hie, hip]
    split <;> simp [Step.isIntr, Step.stateOf, hie]
  · intro hie hip
    simp only [execInstr, hk]
    rw [if_neg (by simp [hk])]
    simp only [treadAt, curRead, hcu]
    simp only [if_neg (by simp : ¬ (false = true))]
    simp [hr1, hr2, hie, hip]
    split <;> simp [Step.isFixpc, Step.stateOf]

/-- A concrete kernel-ring state for the C7 witness: the kernel stack
page (VPN 1) is cached for reads, the keyboard interrupt is pending
(`ipend = FKEYBD = 2`), and interrupts are disabled. -/
def rtiState : EmState :=
  { baseState with vm := { baseMmu with kr := (fun x => if x = 1 then 1 else 0) },
                   xsp := 4200, ipend := 2 }

/-- Witness for C7 at `rtiState`. -/
theorem em_C7_w :
    (rtiState.ipend ≠ 0 →
      execInstr Op.STI 0 rtiState = Step.interrupt { rtiState with
        vm := { rtiState.vm with trap := rtiState.ipend &&& neg32 rtiState.ipend },
        ipend := rtiState.ipend ^^^ (rtiState.ipend &&& neg32 rtiState.ipend), iena := 0 })
    ∧ (rtiState.ipend = 0 → execInstr Op.STI 0 rtiState = Step.next { rtiState with iena := 1 })
    ∧ (rtiState.iena = 0 → rtiState.ipend ≠ 0 →
        (execInstr Op.RTI 0 rtiState).isIntr = true
        ∧ (execInstr Op.RTI 0 rtiState).stateOf.vm.trap = rtiState.ipend &&& neg32 rtiState.ipend
        ∧ (execInstr Op.RTI 0 rtiState).stateOf.ipend =
            rtiState.ipend ^^^ (rtiState.ipend &&& neg32 rtiState.ipend)
        ∧ (execInstr Op.RTI 0 rtiState).stateOf.iena = 0)
    ∧ (rtiState.iena = 0 → rtiState.ipend = 0 →
        (execInstr Op.RTI 0 rtiState).isFixpc = true
        ∧ (execInstr Op.RTI 0 rtiState).stateOf.iena = 1) :=
  em_C7 rtiState 0 rfl rfl (by decide) (by decide)

/-- A write-side walk on a page whose PDE is present (accessed bit
already set) and PTE present but with `q & PTE_W = 0` faults with
`FWPAGE`, latching `vadr = v` and leaving the MMU state otherwise
untouched (in particular no memory byte changes). -/
theorem wlook_fault (m : MmuState) (user v ppde pde ppte pte : Nat)
    (hvm : m.vmem ≠ 0)
    (hppde : ppde = add32 m.pdir ((v >>> 22) <<< 2))
    (hpde : pde = load32 m.mem ppde)
    (hP : pde &&& PTE_P ≠ 0)
    (hA : pde &&& PTE_A ≠ 0)
    (hsz : pde < m.memorySize)
    (hppte : ppte = add32 m.memory ((pde &&& maskPage) + ((v >>> 10) &&& 4092)))
    (hpte : pte = load32 m.mem ppte)
    (hW : (pte &&& pde) &&& PTE_W = 0) :
    wlook m user v = (0, { m with trap := FWPAGE, vadr := v }) := by
  simp only [wlook]
  rw [if_neg hvm, ← hppde, ← hpde, if_pos hP, if_neg (by simp [hA] : ¬ pde &&& PTE_A = 0)]
  rw [if_neg (Nat.not_le.mpr hsz), ← hppte, ← hpte]
  rw [if_neg (by simp [hW] : ¬ (pte &&& PTE_P ≠ 0
    ∧ ((pte &&& pde) &&& PTE_U ≠ 0 ∨ user = 0) ∧ (pte &&& pde) &&& PTE_W ≠ 0))]

/-- C6: an `SX` store whose destination page misses the write quadrant
and whose write-side walk finds the mapping present but not writable
(`q & PTE_W = 0`, PDE accessed bit already set) raises `FWPAGE` with
`vadr` latched to the store address, and the state handed to the
`exception` label carries an unchanged memory — the store wrote
nothing.  If interrupts were enabled (kernel ring, both kernel-stack
push pages cached for writes), delivery then succeeds and control
arrives at the interrupt vector: the guest PC `xpc - tpc` of the
delivered state equals `ivec`. -/
theorem em_C6 (s : EmState) (imm : Nat) (v ppde pde ppte pte : Nat)
    (hv : v = add32 s.b (shr8s imm))
    (hmiss : curWrite s (v >>> 12) = 0)
    (hvm : s.vm.vmem ≠ 0)
    (hppde : ppde = add32 s.vm.pdir ((v >>> 22) <<< 2))
    (hpde : pde = load32 s.vm.mem ppde)
    (hP : pde &&& PTE_P ≠ 0)
    (hA : pde &&& PTE_A ≠ 0)
    (hsz : pde < s.vm.memorySize)
    (hppte : ppte = add32 s.vm.memory ((pde &&& maskPage) + ((v >>> 10) &&& 4092)))
    (hpte : pte = load32 s.vm.mem ppte)
    (hW : (pte &&& pde) &&& PTE_W = 0) :
    execInstr Op.SX imm s
      = Step.exception { s with vm := { s.vm with trap := FWPAGE, vadr := v } }
    ∧ ({ s with vm := { s.vm with trap := FWPAGE, vadr := v } } : EmState).vm.mem = s.vm.mem
    ∧ (s.iena ≠ 0 → s.user = 0 → s.curUser = false → s.ivec < wordSize →
        s.vm.kw ((sub32 (sub32 s.xsp s.tsp) 8) >>> 12) ≠ 0 →
        s.vm.kw ((sub32 (sub32 (sub32 s.xsp s.tsp) 8) 8) >>> 12) ≠ 0 →
        (exceptionEntry { s with vm := { s.vm with trap := FWPAGE, vadr := v } }).isOk = true
        ∧ sub32 (exceptionEntry { s with vm := { s.vm with trap := FWPAGE, vadr := v } }).stateOf.xpc
            (exceptionEntry { s with vm := { s.vm with trap := FWPAGE, vadr := v } }).stateOf.tpc
          = s.ivec) := by
  have hwl := wlook_fault s.vm s.user v ppde pde ppte pte hvm hppde hpde hP hA hsz hppte hpte hW
  refine ⟨?_, rfl, ?_⟩
  · simp only [execInstr]
    rw [← hv]
    simp only [twriteAt, curWrite] at hmiss ⊢
    simp [hmiss, hwl]
  · intro hie hku hcu hivec hk1 hk2
    simp only [exceptionEntry]
    rw [if_neg (by simpa using hie)]
    simp only [deliver, twriteAt, curWrite, hcu]
    simp only [hku]
    simp [hk1, hk2, Deliv.isOk, Deliv.stateOf, sub32_add32_cancel s.ivec s.tpc hivec]

/-- A concrete state for the C6 witness: paging on, the directory at
4096 maps VPN 0x100 through a page table at 8192 to a present but
read-only page (PTE `0x3000 | P|A`, no `W`), B holds the store address
0x100000, interrupts are enabled, and the kernel-stack page (VPN 1) is
cached for writes. -/
def sxMmu : MmuState :=
  { baseMmu with
    mem := store32 (store32 (fun _ => 0) 4096 8225) 9216 12321,
    vmem := 1,
    pdir := 4096,
    kw := (fun x => if x = 1 then 1 else 0) }

/-- The machine state around `sxMmu` for the C6 witness. -/
def sxState : EmState :=
  { baseState with
    vm := sxMmu,
    b := 1048576,
    xsp := 4216,
    iena := 1,
    ivec := 1280,
    xpc := 64 }

/-- Witness for C6: `SX` at `sxState` faults `FWPAGE` on address
0x100000 without touching memory, and delivery lands at `ivec`. -/
theorem em_C6_w :
    execInstr Op.SX 0 sxState
      = Step.exception { sxState with vm := { sxState.vm with trap := FWPAGE, vadr := 1048576 } }
    ∧ ({ sxState with vm := { sxState.vm with trap := FWPAGE, vadr := 1048576 } } : EmState).vm.mem
        = sxState.vm.mem
    ∧ (sxState.iena ≠ 0 → sxState.user = 0 → sxState.curUser = false → sxState.ivec < wordSize →
        sxState.vm.kw ((sub32 (sub32 sxState.xsp sxState.tsp) 8) >>> 12) ≠ 0 →
        sxState.vm.kw ((sub32 (sub32 (sub32 sxState.xsp sxState.tsp) 8) 8) >>> 12) ≠ 0 →
        (exceptionEntry { sxState with
            vm := { sxState.vm with trap := FWPAGE, vadr := 1048576 } }).isOk = true
        ∧ sub32 (exceptionEntry { sxState with
              vm := { sxState.vm with trap := FWPAGE, vadr := 1048576 } }).stateOf.xpc
            (exceptionEntry { sxState with
              vm := { sxState.vm with trap := FWPAGE, vadr := 1048576 } }).stateOf.tpc
          = sxState.ivec) :=
  em_C6 sxState 0 1048576 4096 8225 9216 12321 (by decide) (by decide) (by decide)
    (by decide) (by decide) (by decide) (by decide) (by decide) (by decide)
    (by decide) (by decide)

/-- A completed (non-faulting) `MCPY` advances A and B by exactly the
initial byte count and leaves C at zero. -/
theorem mcpy_next : ∀ (k : Nat), ∀ s : EmState, s.c = k → s.a < wordSize → s.b < wordSize →
    ∀ s', mcpyLoop s = Step.next s' →
    s'.a = add32 s.a s.c ∧ s'.b = add32 s.b s.c ∧ s'.c = 0 := by
  intro k
  induction k using Nat.strong_induction_on with
  | _ k IH =>
    intro s hsc ha hb s' h
    rw [mcpyLoop] at h
    by_cases hc : s.c = 0
    · rw [dif_pos hc] at h
      cases h
      exact ⟨by rw [hc, add32_zero s.a ha], by rw [hc, add32_zero s.b hb], hc⟩
    · rw [dif_neg hc] at h
      simp only [] at h
      by_cases h1 : (treadAt s s.b).1 = 0
      · rw [if_pos h1] at h
        cases h
      · rw [if_neg h1] at h
        by_cases h2 : (twriteAt (treadAt s s.b).2 (treadAt s s.b).2.a).1 = 0
        · rw [if_pos h2] at h
          cases h
        · rw [if_neg h2] at h
          set s2 := (twriteAt (treadAt s s.b).2 (treadAt s s.b).2.a).2 with hs2
          have hca : s2.a = s.a := by rw [hs2, twriteAt_a, treadAt_a]
          have hcb : s2.b = s.b := by rw [hs2, twriteAt_b, treadAt_b]
          have hcc : s2.c = s.c := by rw [hs2, twriteAt_c, treadAt_c]
          have hul : chunk3 s2.a s2.b s2.c ≤ s2.c := chunk3_le _ _ _
          have hup : 0 < chunk3 s2.a s2.b s2.c := chunk3_pos _ _ _ (by omega)
          have hr := IH (s2.c - chunk3 s2.a s2.b s2.c) (by omega) _ rfl
            (add32_lt _ _) (add32_lt _ _) s' h
          dsimp only at hr
          obtain ⟨ra, rb, rc⟩ := hr
          refine ⟨?_, ?_, rc⟩
          · rw [ra, add32_add32, Nat.add_sub_cancel' hul, hca, hcc]
          · rw [rb, add32_add32, Nat.add_sub_cancel' hul, hcb, hcc]

/-- A faulting `MCPY` leaves A, B, C at a partial-progress point: A and
B advanced by the same number of processed bytes, C reduced by it. -/
theorem mcpy_fault : ∀ (k : Nat), ∀ s : EmState, s.c = k → s.a < wordSize → s.b < wordSize →
    ∀ s', mcpyLoop s = Step.exception s' →
    ∃ n, n ≤ s.c ∧ s'.a = add32 s.a n ∧ s'.b = add32 s.b n ∧ s'.c = s.c - n := by
  intro k
  induction k using Nat.strong_induction_on with
  | _ k IH =>
    intro s hsc ha hb s' h
    rw [mcpyLoop] at h
    by_cases hc : s.c = 0
    · rw [dif_pos hc] at h
      cases h
    · rw [dif_neg hc] at h
      simp only [] at h
      by_cases h1 : (treadAt s s.b).1 = 0
      · rw [if_pos h1] at h
        cases h
        refine ⟨0, Nat.zero_le _, ?_, ?_, ?_⟩
        · rw [treadAt_a, add32_zero s.a ha]
        · rw [treadAt_b, add32_zero s.b hb]
        · rw [treadAt_c]
          omega
      · rw [if_neg h1] at h
        by_cases h2 : (twriteAt (treadAt s s.b).2 (treadAt s s.b).2.a).1 = 0
        · rw [if_pos h2] at h
          cases h
          refine ⟨0, Nat.zero_le _, ?_, ?_, ?_⟩
          · rw [twriteAt_a, treadAt_a, add32_zero s.a ha]
          · rw [twriteAt_b, treadAt_b, add32_zero s.b hb]
          · rw [twriteAt_c, treadAt_c]
            omega
        · rw [if_neg h2] at h
          set s2 := (twriteAt (treadAt s s.b).2 (treadAt s s.b).2.a).2 with hs2
          have hca : s2.a = s.a := by rw [hs2, twriteAt_a, treadAt_a]
          have hcb : s2.b = s.b := by rw [hs2, twriteAt_b, treadAt_b]
          have hcc : s2.c = s.c := by rw [hs2, twriteAt_c, treadAt_c]
          have hul : chunk3 s2.a s2.b s2.c ≤ s2.c := chunk3_le _ _ _
          have hr := IH (s2.c - chunk3 s2.a s2.b s2.c)
            (by have := chunk3_pos s2.a s2.b s2.c (by omega); omega) _ rfl
            (add32_lt _ _) (add32_lt _ _) s' h
          dsimp only at hr
          obtain ⟨n, hn, ra, rb, rc⟩ := hr
          refine ⟨chunk3 s2.a s2.b s2.c + n, by omega, ?_, ?_, by omega⟩
          · rw [ra, add32_add32, hca]
          · rw [rb, add32_add32, hcb]

/-- A completed (non-faulting) `MSET` advances A by exactly the initial
byte count, leaves B alone and C at zero. -/
theorem mset_next : ∀ (k : Nat), ∀ s : EmState, s.c = k → s.a < wordSize →
    ∀ s', msetLoop s = Step.next s' →
    s'.a = add32 s.a s.c ∧ s'.b = s.b ∧ s'.c = 0 := by
  intro k
  induction k using Nat.strong_induction_on with
  | _ k IH =>
    intro s hsc ha s' h
    rw [msetLoop] at h
    by_cases hc : s.c = 0
    · rw [dif_pos hc] at h
      cases h
      exact ⟨by rw [hc, add32_zero s.a ha], rfl, hc⟩
    · rw [dif_neg hc] at h
      simp only [] at h
      by_cases h1 : (twriteAt s s.a).1 = 0
      · rw [if_pos h1] at h
        cases h
      · rw [if_neg h1] at h
        set s2 := (twriteAt s s.a).2 with hs2
        have hca : s2.a = s.a := by rw [hs2, twriteAt_a]
        have hcb : s2.b = s.b := by rw [hs2, twriteAt_b]
        have hcc : s2.c = s.c := by rw [hs2, twriteAt_c]
        have hul : chunk2 s2.a s2.c ≤ s2.c := chunk2_le _ _
        have hr := IH (s2.c - chunk2 s2.a s2.c)
          (by have := chunk2_pos s2.a s2.c (by omega); omega) _ rfl
          (add32_lt _ _) s' h
        dsimp only at hr
        obtain ⟨ra, rb, rc⟩ := hr
        refine ⟨?_, by rw [rb, hcb], rc⟩
        · rw [ra, add32_add32, Nat.add_sub_cancel' hul, hca, hcc]

/-- A faulting `MSET` leaves A and C at a partial-progress point and B
untouched. -/
theorem mset_fault : ∀ (k : Nat), ∀ s : EmState, s.c = k → s.a < wordSize →
    ∀ s', msetLoop s = Step.exception s' →
    ∃ n, n ≤ s.c ∧ s'.a = add32 s.a n ∧ s'.b = s.b ∧ s'.c = s.c - n := by
  intro k
  induction k using Nat.strong_induction_on with
  | _ k IH =>
    intro s hsc ha s' h
    rw [msetLoop] at h
    by_cases hc : s.c = 0
    · rw [dif_pos hc] at h
      cases h
    · rw [dif_neg hc] at h
      simp only [] at h
      by_cases h1 : (twriteAt s s.a).1 = 0
      · rw [if_pos h1] at h
        cases h
        refine ⟨0, Nat.zero_le _, ?_, ?_, ?_⟩
        · rw [twriteAt_a, add32_zero s.a ha]
        · rw [twriteAt_b]
        · rw [twriteAt_c]
          omega
      · rw [if_neg h1] at h
        set s2 := (twriteAt s s.a).2 with hs2
        have hca : s2.a = s.a := by rw [hs2, twriteAt_a]
        have hcb : s2.b = s.b := by rw [hs2, twriteAt_b]
        have hcc : s2.c = s.c := by rw [hs2, twriteAt_c]
        have hul : chunk2 s2.a s2.c ≤ s2.c := chunk2_le _ _
        have hr := IH (s2.c - chunk2 s2.a s2.c)
          (by have := chunk2_pos s2.a s2.c (by omega); omega) _ rfl
          (add32_lt _ _) s' h
        dsimp only at hr
        obtain ⟨n, hn, ra, rb, rc⟩ := hr
        refine ⟨chunk2 s2.a s2.c + n, by omega, ?_, by rw [rb, hcb], by omega⟩
        · rw [ra, add32_add32, hca]

/-- A completed (non-faulting) `MCMP` always ends with C = 0. -/
theorem mcmp_next : ∀ (k : Nat), ∀ s : EmState, s.c = k →
    ∀ s', mcmpLoop s = Step.next s' → s'.c = 0 := by
  intro k
  induction k using Nat.strong_induction_on with
  | _ k IH =>
    intro s hsc s' h
    rw [mcmpLoop] at h
    by_cases hc : s.c = 0
    · rw [dif_pos hc] at h
      cases h
      exact hc
    · rw [dif_neg hc] at h
      simp only [] at h
      set s2 := (treadAt (treadAt s s.b).2 (treadAt s s.b).2.a).2 with hs2
      have hcc : s2.c = s.c := by rw [hs2, treadAt_c, treadAt_c]
      split at h
      · cases h
      · split at h
        · cases h
        · split at h
          · cases h
            rfl
          · have hul : chunk3 s2.a s2.b s2.c ≤ s2.c := chunk3_le _ _ _
            have hup : 0 < chunk3 s2.a s2.b s2.c := chunk3_pos _ _ _ (by omega)
            exact IH (s2.c - chunk3 s2.a s2.b s2.c) (by omega) _ rfl s' h

/-- A faulting `MCMP` leaves A, B, C at a partial-progress point. -/
theorem mcmp_fault : ∀ (k : Nat), ∀ s : EmState, s.c = k → s.a < wordSize → s.b < wordSize →
    ∀ s', mcmpLoop s = Step.exception s' →
    ∃ n, n ≤ s.c ∧ s'.a = add32 s.a n ∧ s'.b = add32 s.b n ∧ s'.c = s.c - n := by
  intro k
  induction k using Nat.strong_induction_on with
  | _ k IH =>
    intro s hsc ha hb s' h
    rw [mcmpLoop] at h
    by_cases hc : s.c = 0
    · rw [dif_pos hc] at h
      cases h
    · rw [dif_neg hc] at h
      simp only [] at h
      by_cases h1 : (treadAt s s.b).1 = 0
      · rw [if_pos h1] at h
        cases h
        refine ⟨0, Nat.zero_le _, ?_, ?_, ?_⟩
        · rw [treadAt_a, add32_zero s.a ha]
        · rw [treadAt_b, add32_zero s.b hb]
        · rw [treadAt_c]
          omega
      · rw [if_neg h1] at h
        by_cases h2 : (treadAt (treadAt s s.b).2 (treadAt s s.b).2.a).1 = 0
        · rw [if_pos h2] at h
          cases h
          refine ⟨0, Nat.zero_le _, ?_, ?_, ?_⟩
          · rw [treadAt_a, treadAt_a, add32_zero s.a ha]
          · rw [treadAt_b, treadAt_b, add32_zero s.b hb]
          · rw [treadAt_c, treadAt_c]
            omega
        · rw [if_neg h2] at h
          set s2 := (treadAt (treadAt s s.b).2 (treadAt s s.b).2.a).2 with hs2
          have hca : s2.a = s.a := by rw [hs2, treadAt_a, treadAt_a]
          have hcb : s2.b = s.b := by rw [hs2, treadAt_b, treadAt_b]
          have hcc : s2.c = s.c := by rw [hs2, treadAt_c, treadAt_c]
          split at h
          · cases h
          · have hul : chunk3 s2.a s2.b s2.c ≤ s2.c := chunk3_le _ _ _
            have hr := IH (s2.c - chunk3 s2.a s2.b s2.c)
              (by have := chunk3_pos s2.a s2.b s2.c (by omega); omega) _ rfl
              (add32_lt _ _) (add32_lt _ _) s' h
            dsimp only at hr
            obtain ⟨n, hn, ra, rb, rc⟩ := hr
            refine ⟨chunk3 s2.a s2.b s2.c + n, by omega, ?_, ?_, by omega⟩
            · rw [ra, add32_add32, hca]
            · rw [rb, add32_add32, hcb]

/-- A completed (non-faulting) `MCHR` always ends with C = 0 and B (the
needle) untouched. -/
theorem mchr_next : ∀ (k : Nat), ∀ s : EmState, s.c = k →
    ∀ s', mchrLoop s = Step.next s' → s'.c = 0 ∧ s'.b = s.b := by
  intro k
  induction k using Nat.strong_induction_on with
  | _ k IH =>
    intro s hsc s' h
    rw [mchrLoop] at h
    by_cases hc : s.c = 0
    · rw [dif_pos hc] at h
      cases h
      exact ⟨hc, rfl⟩
    · rw [dif_neg hc] at h
      simp only [] at h
      set s2 := (treadAt s s.a).2 with hs2
      have hcc : s2.c = s.c := by rw [hs2, treadAt_c]
      have hcb : s2.b = s.b := by rw [hs2, treadAt_b]
      split at h
      · cases h
      · split at h
        · cases h
          exact ⟨rfl, hcb⟩
        · have hul : chunk2 s2.a s2.c ≤ s2.c := chunk2_le _ _
          have hup : 0 < chunk2 s2.a s2.c := chunk2_pos _ _ (by omega)
          have hr := IH (s2.c - chunk2 s2.a s2.c) (by omega) _ rfl s' h
          dsimp only at hr
          exact ⟨hr.1, by rw [hr.2, hcb]⟩

/-- A faulting `MCHR` leaves A and C at a partial-progress point and B
untouched. -/
theorem mchr_fault : ∀ (k : Nat), ∀ s : EmState, s.c = k → s.a < wordSize →
    ∀ s', mchrLoop s = Step.exception s' →
    ∃ n, n ≤ s.c ∧ s'.a = add32 s.a n ∧ s'.b = s.b ∧ s'.c = s.c - n := by
  intro k
  induction k using Nat.strong_induction_on with
  | _ k IH =>
    intro s hsc ha s' h
    rw [mchrLoop] at h
    by_cases hc : s.c = 0
    · rw [dif_pos hc] at h
      cases h
    · rw [dif_neg hc] at h
      simp only [] at h
      by_cases h1 : (treadAt s s.a).1 = 0
      · rw [if_pos h1] at h
        cases h
        refine ⟨0, Nat.zero_le _, ?_, ?_, ?_⟩
        · rw [treadAt_a, add32_zero s.a ha]
        · rw [treadAt_b]
        · rw [treadAt_c]
          omega
      · rw [if_neg h1] at h
        set s2 := (treadAt s s.a).2 with hs2
        have hca : s2.a = s.a := by rw [hs2, treadAt_a]
        have hcb : s2.b = s.b := by rw [hs2, treadAt_b]
        have hcc : s2.c = s.c := by rw [hs2, treadAt_c]
        split at h
        · cases h
        · have hul : chunk2 s2.a s2.c ≤ s2.c := chunk2_le _ _
          have hr := IH (s2.c - chunk2 s2.a s2.c)
            (by have := chunk2_pos s2.a s2.c (by omega); omega) _ rfl
            (add32_lt _ _) s' h
          dsimp only at hr
          obtain ⟨n, hn, ra, rb, rc⟩ := hr
          refine ⟨chunk2 s2.a s2.c + n, by omega, ?_, by rw [rb, hcb], by omega⟩
          · rw [ra, add32_add32, hca]

/-- One completed `MCPY` chunk under translation-cache hits: exactly
`chunk3 a b c` bytes are copied, then A and B advance and C shrinks by
that amount before the loop continues. -/
theorem mcpy_chunk (s : EmState) (hc : s.c ≠ 0)
    (h1 : curRead s (s.b >>> 12) ≠ 0) (h2 : curWrite s (s.a >>> 12) ≠ 0) :
    mcpyLoop s = mcpyLoop { s with
      a := add32 s.a (chunk3 s.a s.b s.c),
      b := add32 s.b (chunk3 s.a s.b s.c),
      c := s.c - chunk3 s.a s.b s.c,
      vm := { s.vm with mem := memcpyBytes s.vm.mem (s.a ^^^ (curWrite s (s.a >>> 12) &&& mask2)) (s.b ^^^ (curRead s (s.b >>> 12) &&& mask2)) (chunk3 s.a s.b s.c) } } := by
  have e1 : treadAt s s.b = (curRead s (s.b >>> 12), s) := by
    rw [treadAt]
    simp [h1]
  have e2 : twriteAt s s.a = (curWrite s (s.a >>> 12), s) := by
    rw [twriteAt]
    simp [h2]
  conv_lhs => rw [mcpyLoop]
  rw [dif_neg hc]
  simp only [e1, e2]
  rw [if_neg (by simpa using h1), if_neg (by simpa using h2)]

/-- One completed `MSET` chunk under a translation-cache hit: exactly
`chunk2 a c` bytes are filled, then A advances and C shrinks by that
amount before the loop continues. -/
theorem mset_chunk (s : EmState) (hc : s.c ≠ 0)
    (h1 : curWrite s (s.a >>> 12) ≠ 0) :
    msetLoop s = msetLoop { s with
      a := add32 s.a (chunk2 s.a s.c),
      c := s.c - chunk2 s.a s.c,
      vm := { s.vm with mem := memsetBytes s.vm.mem (s.a ^^^ (curWrite s (s.a >>> 12) &&& mask2)) s.b (chunk2 s.a s.c) } } := by
  have e1 : twriteAt s s.a = (curWrite s (s.a >>> 12), s) := by
    rw [twriteAt]
    simp [h1]
  conv_lhs => rw [msetLoop]
  rw [dif_neg hc]
  simp only [e1]
  rw [if_neg (by simpa using h1)]

/-- One completed equal `MCMP` chunk under translation-cache hits:
exactly `chunk3 a b c` bytes are compared, and when they agree A and B
advance and C shrinks by that amount before the loop continues. -/
theorem mcmp_chunk (s : EmState) (hc : s.c ≠ 0)
    (h1 : curRead s (s.b >>> 12) ≠ 0) (h2 : curRead s (s.a >>> 12) ≠ 0)
    (hz : memcmpBytes s.vm.mem (s.a ^^^ (curRead s (s.a >>> 12) &&& mask2))
      (s.b ^^^ (curRead s (s.b >>> 12) &&& mask2)) (chunk3 s.a s.b s.c) = 0) :
    mcmpLoop s = mcmpLoop { s with
      a := add32 s.a (chunk3 s.a s.b s.c),
      b := add32 s.b (chunk3 s.a s.b s.c),
      c := s.c - chunk3 s.a s.b s.c } := by
  have e1 : treadAt s s.b = (curRead s (s.b >>> 12), s) := by
    rw [treadAt]
    simp [h1]
  have e2 : treadAt s s.a = (curRead s (s.a >>> 12), s) := by
    rw [treadAt]
    simp [h2]
  conv_lhs => rw [mcmpLoop]
  rw [dif_neg hc]
  simp only [e1, e2]
  rw [if_neg (by simpa using h1), if_neg (by simpa using h2)]
  rw [if_neg (by simpa using hz)]

/-- One completed no-hit `MCHR` chunk under a translation-cache hit:
exactly `chunk2 a c` bytes are scanned, and when the needle is absent A
advances and C shrinks by that amount before the loop continues. -/
theorem mchr_chunk (s : EmState) (hc : s.c ≠ 0)
    (h1 : curRead s (s.a >>> 12) ≠ 0)
    (hnone : memchrIdx s.vm.mem (s.a ^^^ (curRead s (s.a >>> 12) &&& mask2)) s.b
      (chunk2 s.a s.c) = none) :
    mchrLoop s = mchrLoop { s with
      a := add32 s.a (chunk2 s.a s.c),
      c := s.c - chunk2 s.a s.c } := by
  have e1 : treadAt s s.a = (curRead s (s.a >>> 12), s) := by
    rw [treadAt]
    simp [h1]
  conv_lhs => rw [mchrLoop]
  rw [dif_neg hc]
  simp only [e1]
  rw [if_neg (by simpa using h1)]
  rw [hnone]

/-- C8: the block-memory opcodes proceed in per-page chunks of exactly
`min(4096 - (a & 0xfff), 4096 - (b & 0xfff), c)` bytes (the min over the
operands the opcode addresses: `chunk3` for `MCPY`/`MCMP`, `chunk2` for
`MCHR`/`MSET`), updating A, B, C after each completed chunk; when a
chunk's translation faults, A, B, C hold partial-progress values
(advanced in lockstep by the `n` bytes already processed), and
re-executing the same opcode with those register values completes
exactly the remaining tail: a successful re-execution ends with the
registers at the very values an uninterrupted run would have reached. -/
theorem em_C8 (s : EmState) (imm : Nat) (ha : s.a < wordSize) (hb : s.b < wordSize) :
    (chunk3 s.a s.b s.c = min (4096 - (s.a &&& 4095)) (min (4096 - (s.b &&& 4095)) s.c)
     ∧ chunk2 s.a s.c = min (4096 - (s.a &&& 4095)) s.c
     ∧ (s.c ≠ 0 → 0 < chunk3 s.a s.b s.c ∧ chunk3 s.a s.b s.c ≤ s.c
         ∧ 0 < chunk2 s.a s.c ∧ chunk2 s.a s.c ≤ s.c))
    ∧ (s.c ≠ 0 → curRead s (s.b >>> 12) ≠ 0 → curWrite s (s.a >>> 12) ≠ 0 →
        execInstr Op.MCPY imm s = mcpyLoop { s with a := add32 s.a (chunk3 s.a s.b s.c), b := add32 s.b (chunk3 s.a s.b s.c), c := s.c - chunk3 s.a s.b s.c, vm := { s.vm with mem := memcpyBytes s.vm.mem (s.a ^^^ (curWrite s (s.a >>> 12) &&& mask2)) (s.b ^^^ (curRead s (s.b >>> 12) &&& mask2)) (chunk3 s.a s.b s.c) } })
    ∧ (∀ s', execInstr Op.MCPY imm s = Step.next s' →
        s'.a = add32 s.a s.c ∧ s'.b = add32 s.b s.c ∧ s'.c = 0)
    ∧ (∀ s', execInstr Op.MCPY imm s = Step.exception s' →
        ∃ n, n ≤ s.c ∧ s'.a = add32 s.a n ∧ s'.b = add32 s.b n ∧ s'.c = s.c - n)
    ∧ (∀ s' s2 s3, execInstr Op.MCPY imm s = Step.exception s' →
        s2.a = s'.a → s2.b = s'.b → s2.c = s'.c →
        execInstr Op.MCPY imm s2 = Step.next s3 →
        s3.a = add32 s.a s.c ∧ s3.b = add32 s.b s.c ∧ s3.c = 0)
    ∧ (s.c ≠ 0 → curWrite s (s.a >>> 12) ≠ 0 →
        execInstr Op.MSET imm s = msetLoop { s with a := add32 s.a (chunk2 s.a s.c), c := s.c - chunk2 s.a s.c, vm := { s.vm with mem := memsetBytes s.vm.mem (s.a ^^^ (curWrite s (s.a >>> 12) &&& mask2)) s.b (chunk2 s.a s.c) } })
    ∧ (∀ s', execInstr Op.MSET imm s = Step.next s' →
        s'.a = add32 s.a s.c ∧ s'.b = s.b ∧ s'.c = 0)
    ∧ (∀ s', execInstr Op.MSET imm s = Step.exception s' →
        ∃ n, n ≤ s.c ∧ s'.a = add32 s.a n ∧ s'.b = s.b ∧ s'.c = s.c - n)
    ∧ (∀ s' s2 s3, execInstr Op.MSET imm s = Step.exception s' →
        s2.a = s'.a → s2.c = s'.c →
        execInstr Op.MSET imm s2 = Step.next s3 →
        s3.a = add32 s.a s.c ∧ s3.c = 0)
    ∧ (s.c ≠ 0 → curRead s (s.b >>> 12) ≠ 0 → curRead s (s.a >>> 12) ≠ 0 →
        memcmpBytes s.vm.mem (s.a ^^^ (curRead s (s.a >>> 12) &&& mask2)) (s.b ^^^ (curRead s (s.b >>> 12) &&& mask2)) (chunk3 s.a s.b s.c) = 0 →
        execInstr Op.MCMP imm s = mcmpLoop { s with a := add32 s.a (chunk3 s.a s.b s.c), b := add32 s.b (chunk3 s.a s.b s.c), c := s.c - chunk3 s.a s.b s.c })
    ∧ (∀ s', execInstr Op.MCMP imm s = Step.next s' → s'.c = 0)
    ∧ (∀ s', execInstr Op.MCMP imm s = Step.exception s' →
        ∃ n, n ≤ s.c ∧ s'.a = add32 s.a n ∧ s'.b = add32 s.b n ∧ s'.c = s.c - n)
    ∧ (∀ s' s2 s3, execInstr Op.MCMP imm s = Step.exception s' → s2.c = s'.c →
        execInstr Op.MCMP imm s2 = Step.next s3 → s3.c = 0)
    ∧ (s.c ≠ 0 → curRead s (s.a >>> 12) ≠ 0 →
        memchrIdx s.vm.mem (s.a ^^^ (curRead s (s.a >>> 12) &&& mask2)) s.b (chunk2 s.a s.c) = none →
        execInstr Op.MCHR imm s = mchrLoop { s with a := add32 s.a (chunk2 s.a s.c), c := s.c - chunk2 s.a s.c })
    ∧ (∀ s', execInstr Op.MCHR imm s = Step.next s' → s'.c = 0 ∧ s'.b = s.b)
    ∧ (∀ s', execInstr Op.MCHR imm s = Step.exception s' →
        ∃ n, n ≤ s.c ∧ s'.a = add32 s.a n ∧ s'.b = s.b ∧ s'.c = s.c - n)
    ∧ (∀ s' s2 s3, execInstr Op.MCHR imm s = Step.exception s' → s2.c = s'.c →
        execInstr Op.MCHR imm s2 = Step.next s3 → s3.c = 0 ∧ s3.b = s2.b) := by
  refine ⟨⟨chunk3_eq_min s.a s.b s.c, chunk2_eq_min s.a s.c,
      fun hc => ⟨chunk3_pos s.a s.b s.c hc, chunk3_le s.a s.b s.c,
        chunk2_pos s.a s.c hc, chunk2_le s.a s.c⟩⟩,
    ?_, ?_, ?_, ?_, ?_, ?_, ?_, ?_, ?_, ?_, ?_, ?_, ?_, ?_, ?_, ?_⟩
  · intro hc h1 h2
    exact mcpy_chunk s hc h1 h2
  · intro s' h
    exact mcpy_next s.c s rfl ha hb s' h
  · intro s' h
    exact mcpy_fault s.c s rfl ha hb s' h
  · intro s' s2 s3 hf h2a h2b h2c hn
    obtain ⟨n, hnle, ra, rb, rc⟩ := mcpy_fault s.c s rfl ha hb s' hf
    have h2alt : s2.a < wordSize := by
      rw [h2a, ra]
      exact add32_lt _ _
    have h2blt : s2.b < wordSize := by
      rw [h2b, rb]
      exact add32_lt _ _
    obtain ⟨ta, tb, tc⟩ := mcpy_next s2.c s2 rfl h2alt h2blt s3 hn
    have hrec : n + (s.c - n) = s.c := Nat.add_sub_cancel' hnle
    refine ⟨?_, ?_, tc⟩
    · rw [ta, h2a, ra, h2c, rc, add32_add32, hrec]
    · rw [tb, h2b, rb, h2c, rc, add32_add32, hrec]
  · intro hc h1
    exact mset_chunk s hc h1
  · intro s' h
    exact mset_next s.c s rfl ha s' h
  · intro s' h
    exact mset_fault s.c s rfl ha s' h
  · intro s' s2 s3 hf h2a h2c hn
    obtain ⟨n, hnle, ra, rb, rc⟩ := mset_fault s.c s rfl ha s' hf
    have h2alt : s2.a < wordSize := by
      rw [h2a, ra]
      exact add32_lt _ _
    obtain ⟨ta, tb, tc⟩ := mset_next s2.c s2 rfl h2alt s3 hn
    have hrec : n + (s.c - n) = s.c := Nat.add_sub_cancel' hnle
    refine ⟨?_, tc⟩
    rw [ta, h2a, ra, h2c, rc, add32_add32, hrec]
  · intro hc h1 h2 hz
    exact mcmp_chunk s hc h1 h2 hz
  · intro s' h
    exact mcmp_next s.c s rfl s' h
  · intro s' h
    exact mcmp_fault s.c s rfl ha hb s' h
  · intro s' s2 s3 _ _ hn
    exact mcmp_next s2.c s2 rfl s3 hn
  · intro hc h1 hnone
    exact mchr_chunk s hc h1 hnone
  · intro s' h
    exact mchr_next s.c s rfl s' h
  · intro s' h
    exact mchr_fault s.c s rfl ha s' h
  · intro s' s2 s3 _ _ hn
    exact mchr_next s2.c s2 rfl s3 hn

/-- A concrete state for the C8 witness: a 4-byte block operation with
page-aligned A and B. -/
def blkState : EmState := { baseState with a := 20480, b := 24576, c := 4 }

/-- Witness for C8 at `blkState`: the chunk-size bound component of the
claim, concretely evaluated. -/
theorem em_C8_w :
    chunk3 blkState.a blkState.b blkState.c
      = min (4096 - (blkState.a &&& 4095)) (min (4096 - (blkState.b &&& 4095)) blkState.c)
    ∧ chunk2 blkState.a blkState.c = min (4096 - (blkState.a &&& 4095)) blkState.c
    ∧ (blkState.c ≠ 0 → 0 < chunk3 blkState.a blkState.b blkState.c
        ∧ chunk3 blkState.a blkState.b blkState.c ≤ blkState.c
        ∧ 0 < chunk2 blkState.a blkState.c ∧ chunk2 blkState.a blkState.c ≤ blkState.c) :=
  (em_C8 blkState 0 (by decide) (by decide)).1

end Em
